import Mathlib

/-!
# OceanSight front end: upload workflow and history view

A shallow embedding of the stateful logic of `Frontend/src/Dashboard.jsx`
(`handleFileChange`, `handleUpload`, the submit button's `disabled` test, the profile
effect), of `Frontend/src/History.jsx` (the `onValue` callback) and of
`Frontend/src/Login.jsx` (`userInstance`).

React state is an explicit record; an asynchronous handler is a function from the state at
the time of the call and the results its collaborators give back (identity token, HTTP
exchange, record-store append) to the final state and the list of collaborator calls it
issued, in order.
-/

namespace OceanSight

/-! ## JavaScript values -/

/-- A JavaScript value held in a property. A nested object or array is kept only through
its string conversion (it is always truthy); numbers are integers. -/
inductive JsVal where
  | undefined
  | null
  | bool (b : Bool)
  | num (n : Int)
  | str (s : String)
  | composite (text : String)
  deriving DecidableEq, Repr

/-- JavaScript truthiness (`ToBoolean`). -/
def JsVal.truthy : JsVal → Bool
  | .undefined => false
  | .null => false
  | .bool b => b
  | .num n => n != 0
  | .str s => s != ""
  | .composite _ => true

/-- JavaScript string conversion (`ToString`). -/
def JsVal.toStr : JsVal → String
  | .undefined => "undefined"
  | .null => "null"
  | .bool b => if b then "true" else "false"
  | .num n => toString n
  | .str s => s
  | .composite text => text

/-- The own properties of a plain JavaScript object, in enumeration order. -/
abbrev JsObject := List (String × JsVal)

/-- Property read `o[k]` on a plain object: `undefined` when the key is absent. -/
def JsObject.get (o : JsObject) (k : String) : JsVal :=
  (o.lookup k).getD JsVal.undefined

/-- Property write `o[k] = v` (`CreateDataProperty`): an existing key keeps its place. -/
def JsObject.set : JsObject → String → JsVal → JsObject
  | [], k, v => [(k, v)]
  | (k', v') :: rest, k, v =>
    if k' = k then (k, v) :: rest else (k', v') :: JsObject.set rest k v

/-- A value produced by `response.json()`: a scalar, a plain object or an array. -/
inductive JsData where
  | scalar (v : JsVal)
  | object (fields : JsObject)
  | array (items : List JsVal)
  deriving DecidableEq, Repr

/-- Truthiness of a parsed body: objects and arrays are truthy. -/
def JsData.truthy : JsData → Bool
  | .scalar v => v.truthy
  | .object _ => true
  | .array _ => true

/-- A thrown `Error`; `message` is the empty string when the thrown value has none. -/
structure JsError where
  message : String
  deriving DecidableEq, Repr

/-- Property read `d.name` for the names this program reads (`error`, `original_url`,
`enhanced_url`, `result_url`): reading from `null` or `undefined` throws a `TypeError`,
a scalar or an array has no such property. -/
def JsData.getProp (d : JsData) (name : String) : Except JsError JsVal :=
  match d with
  | .scalar .null =>
    .error ⟨"Cannot read properties of null (reading '" ++ name ++ "')"⟩
  | .scalar .undefined =>
    .error ⟨"Cannot read properties of undefined (reading '" ++ name ++ "')"⟩
  | .scalar _ => .ok .undefined
  | .array _ => .ok .undefined
  | .object fields => .ok (fields.get name)

/-! ## Dashboard.jsx -/

/-- A `File` picked in the file input. -/
structure File where
  name : String
  size : Nat
  deriving DecidableEq, Repr

/-- The part of `auth.currentUser` the dashboard reads. -/
structure User where
  uid : String
  email : String
  deriving DecidableEq, Repr

/-- The four `useState` cells of `Dashboard` (lines 15-18). `imageUrls` is
`JsData.scalar JsVal.null` for `null`, `error` is `""` when no message is shown. -/
structure DashState where
  selectedFile : Option File
  imageUrls : JsData
  loading : Bool
  error : String
  deriving DecidableEq, Repr

/-- The value `null` of the `imageUrls` cell. -/
def noResult : JsData := .scalar .null

/-- State of a freshly mounted `Dashboard`. -/
def DashState.initial : DashState :=
  { selectedFile := none, imageUrls := noResult, loading := false, error := "" }

/-- An HTTP response as `handleUpload` reads it: the status and the outcome of
`response.json()`. -/
structure Response where
  status : Nat
  json : Except JsError JsData

/-- The `ok` flag of a response: the status is in the range 200-299. -/
def Response.ok (r : Response) : Bool :=
  decide (200 ≤ r.status) && decide (r.status ≤ 299)

/-- What the collaborators of `handleUpload` answer. -/
structure Env where
  baseUrl : String
  getIdToken : User → Except JsError String
  fetch : String → File → String → Except JsError Response
  now : String
  push : String → JsObject → Except JsError Unit

/-- A collaborator call issued by a handler. -/
inductive Call where
  | getIdToken (uid : String)
  | fetch (url : String) (file : File) (idToken : String)
  | push (path : String) (record : JsObject)
  deriving DecidableEq, Repr

/-- Whether a call is a request to the inference endpoint. -/
def Call.isFetch : Call → Bool
  | .fetch _ _ _ => true
  | _ => false

/-- Whether a call is an append to the record store. -/
def Call.isPush : Call → Bool
  | .push _ _ => true
  | _ => false

/-- Final state and the calls issued, in order. -/
structure Outcome where
  state : DashState
  calls : List Call
  deriving DecidableEq, Repr

/-- The state left by a `try` body together with what it threw, if anything. -/
structure TryResult where
  state : DashState
  calls : List Call
  thrown : Option JsError

/-- The module constant `url` (line 9). -/
def url (env : Env) : String := env.baseUrl ++ "/predict"

/-- `handleFileChange` (lines 37-44); `file` is `event.target.files[0]`, absent when the
list is empty. -/
def handleFileChange (file : Option File) (s : DashState) : Outcome :=
  match file with
  | some f => ⟨{ s with selectedFile := some f, imageUrls := noResult, error := "" }, []⟩
  | none => ⟨s, []⟩

/-- The path of a user's prediction collection (line 67). -/
def predictionsPath (user : User) : String := "users/" ++ user.uid ++ "/predictions"

/-- The `try` block of `handleUpload` (lines 56-73), run from state `s`. -/
def uploadTry (env : Env) (user : User) (file : File) (s : DashState) : TryResult :=
  match env.getIdToken user with
  | .error e => ⟨s, [.getIdToken user.uid], some e⟩
  | .ok idToken =>
    let sent := [Call.getIdToken user.uid, Call.fetch (url env) file idToken]
    match env.fetch (url env) file idToken with
    | .error e => ⟨s, sent, some e⟩
    | .ok response =>
      if !response.ok then
        let errorData : JsData :=
          match response.json with
          | .ok d => d
          | .error _ => .object []
        match errorData.getProp "error" with
        | .error e => ⟨s, sent, some e⟩
        | .ok v =>
          if v.truthy then ⟨s, sent, some ⟨v.toStr⟩⟩
          else ⟨s, sent, some ⟨"Server error: " ++ toString response.status⟩⟩
      else
        match response.json with
        | .error e => ⟨s, sent, some e⟩
        | .ok data =>
          let s1 := { s with imageUrls := data }
          let path := predictionsPath user
          match data.getProp "original_url", data.getProp "enhanced_url",
              data.getProp "result_url" with
          | .ok o, .ok en, .ok r =>
            let record : JsObject :=
              [("original_url", o), ("enhanced_url", en), ("result_url", r),
               ("timestamp", .str env.now)]
            match env.push path record with
            | .error e => ⟨s1, sent ++ [.push path record], some e⟩
            | .ok _ => ⟨s1, sent ++ [.push path record], none⟩
          | .error e, _, _ => ⟨s1, sent, some e⟩
          | _, .error e, _ => ⟨s1, sent, some e⟩
          | _, _, .error e => ⟨s1, sent, some e⟩

/-- The `catch` clause (line 75): `setError(e.message || 'An unknown error occurred.')`. -/
def catchError (e : JsError) (s : DashState) : DashState :=
  { s with error := if e.message != "" then e.message else "An unknown error occurred." }

/-- The state in which `handleUpload` waits at its first `await` (lines 52-54 applied). -/
def uploadingState (s : DashState) : DashState :=
  { s with loading := true, error := "", imageUrls := noResult }

/-- `handleUpload` (lines 47-79), run to completion from state `s` with `user` the value
of `auth.currentUser`. -/
def handleUpload (env : Env) (user : Option User) (s : DashState) : Outcome :=
  match s.selectedFile, user with
  | none, _ => ⟨{ s with error := "Please select an image file first." }, []⟩
  | some _, none => ⟨{ s with error := "You must be logged in." }, []⟩
  | some file, some u =>
    let r := uploadTry env u file (uploadingState s)
    let s2 :=
      match r.thrown with
      | some e => catchError e r.state
      | none => r.state
    ⟨{ s2 with loading := false }, r.calls⟩

/-- The submit button (lines 168-171): it is disabled while `loading` or with no file
selected, otherwise a click runs `handleUpload`. -/
def clickUpload (env : Env) (user : Option User) (s : DashState) : Outcome :=
  if s.loading || s.selectedFile.isNone then ⟨s, []⟩ else handleUpload env user s

/-- The phases of the upload workflow. -/
inductive Phase where
  | Idle | Selected | Uploading | Succeeded | Failed
  deriving DecidableEq, Repr

/-- Modelled from the spec: the phase of an UploadState. The code keeps no phase cell; the
phase is read off the four state cells: `Uploading` while the in-flight flag `loading` is
set, `Succeeded` when a result is shown, `Idle` with no file selected, and with a file
selected `Failed` when an error message is shown and `Selected` otherwise. -/
def phase (s : DashState) : Phase :=
  if s.loading then .Uploading
  else if s.imageUrls.truthy then .Succeeded
  else
    match s.selectedFile with
    | none => .Idle
    | some _ => if s.error = "" then .Selected else .Failed

/-! ## History.jsx -/

/-- Object spread `{...target, ...src}`: the properties of `src` are written onto `target`
in order. -/
def JsObject.spread (target src : JsObject) : JsObject :=
  src.foldl (fun acc kv => acc.set kv.1 kv.2) target

/-- The entry built for one key (lines 23-25): `{ id: key, ...data[key] }`. -/
def historyEntry (key : String) (record : JsObject) : JsObject :=
  JsObject.spread [("id", .str key)] record

/-- The comparator of line 26, `new Date(b.timestamp) - new Date(a.timestamp)`. `dateOf`
gives the time value of `new Date(v)` in milliseconds, `none` for an invalid date; the
difference is `none` (NaN) when either date is invalid. -/
def compareByTimestamp (dateOf : JsVal → Option Int) (a b : JsObject) : Option Int :=
  match dateOf (b.get "timestamp"), dateOf (a.get "timestamp") with
  | some tb, some ta => some (tb - ta)
  | _, _ => none

/-- The order `Array.prototype.sort` reads off the comparator: `a` may stay before `b`
when the comparator's value is not positive, a NaN value counting as zero. -/
def sortsBefore (dateOf : JsVal → Option Int) (a b : JsObject) : Prop :=
  (compareByTimestamp dateOf a b).getD 0 ≤ 0

instance sortsBeforeDecidable (dateOf : JsVal → Option Int) :
    DecidableRel (sortsBefore dateOf) :=
  fun a b => inferInstanceAs (Decidable ((compareByTimestamp dateOf a b).getD 0 ≤ 0))

/-- The entries before sorting: `Object.keys(data).map(...)`, with `data` given as its
keys and records in the order `Object.keys` enumerates them. -/
def historyEntries (data : List (String × JsObject)) : List JsObject :=
  data.map (fun kv => historyEntry kv.1 kv.2)

/-- The list handed to `setHistory` for a non-null snapshot (lines 23-26).
`Array.prototype.sort` is stable: whenever the comparator is consistent on the entries
(every timestamp a valid date) each engine returns the one sorted arrangement that keeps
ties in their original order, rendered here as a stable insertion sort. With an invalid
timestamp among several valid ones the comparator is inconsistent and the arrangement is
the engine's own; `historyListV8` below gives the one V8 produces. -/
def historyList (dateOf : JsVal → Option Int) (data : List (String × JsObject)) :
    List JsObject :=
  (historyEntries data).insertionSort (sortsBefore dateOf)

/-- The number `Array.prototype.sort` takes from the comparator: NaN counts as `+0`. -/
def compareValue (dateOf : JsVal → Option Int) (a b : JsObject) : Int :=
  (compareByTimestamp dateOf a b).getD 0

/-- How far the initial run extends past its second element: in a descending run each
element compares below its predecessor, in any other run none does. -/
def runRest {α : Type} (cmp : α → α → Int) (descending : Bool) (previous : α) :
    List α → Nat
  | [] => 0
  | current :: rest =>
    if descending then
      if cmp current previous ≥ 0 then 0 else 1 + runRest cmp descending current rest
    else
      if cmp current previous < 0 then 0 else 1 + runRest cmp descending current rest

/-- Length of the initial run of an array and whether it is strictly descending. -/
def countRun {α : Type} (cmp : α → α → Int) : List α → Nat × Bool
  | [] => (0, false)
  | [_] => (1, false)
  | high :: low :: rest =>
    (2 + runRest cmp (decide (cmp low high < 0)) low rest, decide (cmp low high < 0))

/-- Binary search for the place of `pivot` between `left` and `right` in `arr`: the
interval moves left of `mid` when `pivot` compares below `arr[mid]`, right of it
otherwise. `fuel` bounds the number of halvings. -/
def insertPosition {α : Type} (cmp : α → α → Int) (pivot : α) (arr : List α) :
    Nat → Nat → Nat → Nat
  | 0, left, _ => left
  | fuel + 1, left, right =>
    if left < right then
      match arr[left + (right - left) / 2]? with
      | none => left
      | some x =>
        if cmp pivot x < 0 then
          insertPosition cmp pivot arr fuel left (left + (right - left) / 2)
        else
          insertPosition cmp pivot arr fuel (left + (right - left) / 2 + 1) right
    else left

/-- One step of binary insertion: `pivot` is placed into `arr` at the position found. -/
def binaryInsert {α : Type} (cmp : α → α → Int) (arr : List α) (pivot : α) : List α :=
  arr.take (insertPosition cmp pivot arr (arr.length + 1) 0 arr.length) ++
    pivot :: arr.drop (insertPosition cmp pivot arr (arr.length + 1) 0 arr.length)

/-- `Array.prototype.sort` as V8 carries it out on an array of fewer than 64 elements
(its TimSort then works with a single run): the initial run is counted and reversed when
strictly descending, and every later element is placed by binary insertion. -/
def v8Sort {α : Type} (cmp : α → α → Int) (l : List α) : List α :=
  (l.drop (countRun cmp l).1).foldl (binaryInsert cmp)
    (if (countRun cmp l).2 then (l.take (countRun cmp l).1).reverse
     else l.take (countRun cmp l).1)

/-- Binary insertion read as a linear scan: `pivot` is placed right before the first
element it compares below. -/
def lateInsert {α : Type} (cmp : α → α → Int) (pivot : α) : List α → List α
  | [] => [pivot]
  | x :: xs => if cmp pivot x < 0 then pivot :: x :: xs else x :: lateInsert cmp pivot xs

/-- The list handed to `setHistory` (lines 23-26) when the page runs on V8 and the
snapshot has fewer than 64 records. -/
def historyListV8 (dateOf : JsVal → Option Int) (data : List (String × JsObject)) :
    List JsObject :=
  v8Sort (compareValue dateOf) (historyEntries data)

/-- The two `useState` cells of `History` (lines 13-14). -/
structure HistoryState where
  history : List JsObject
  loading : Bool
  deriving DecidableEq, Repr

/-- The `onValue` callback (lines 20-32); `snapshot` is `snapshot.val()`, `none` for
`null`. -/
def onValue (dateOf : JsVal → Option Int) (snapshot : Option (List (String × JsObject)))
    (_s : HistoryState) : HistoryState :=
  match snapshot with
  | some data => { history := historyList dateOf data, loading := false }
  | none => { history := [], loading := false }

/-- The time value the comparator reads from an entry. -/
def entryTime (dateOf : JsVal → Option Int) (e : JsObject) : Option Int :=
  dateOf (e.get "timestamp")

/-- The time value of an entry as an integer, 0 standing in for an invalid date. -/
def timeKey (dateOf : JsVal → Option Int) (e : JsObject) : Int :=
  (entryTime dateOf e).getD 0

/-- A plain object holds no key twice. -/
def JsObject.uniqueKeys (o : JsObject) : Prop := (o.map Prod.fst).Nodup

instance uniqueKeysDecidable (o : JsObject) : Decidable o.uniqueKeys :=
  inferInstanceAs (Decidable (o.map Prod.fst).Nodup)

/-! ## Login.jsx and the profile effect of Dashboard.jsx -/

/-- The user object handed to `userInstance`; `uid` is `""` when it is missing. -/
structure AuthUser where
  uid : String
  email : JsVal
  displayName : JsVal
  photoURL : JsVal
  deriving DecidableEq, Repr

/-- An error thrown by a database call or by the runtime; `code` is `""` when the error
has no `code` property. -/
structure DbError where
  code : String
  message : String
  deriving DecidableEq, Repr

/-- The record store as the profile code sees it: the object stored at each path, if
any. -/
abbrev Store := String → Option JsObject

/-- `set(ref, value)`: the node at `path` becomes `value`. -/
def Store.write (store : Store) (path : String) (value : JsObject) : Store :=
  fun p => if p = path then some value else store p

/-- `update(ref, values)`: the listed children of the node at `path` are written, the
others are kept. -/
def Store.update (store : Store) (path : String) (values : JsObject) : Store :=
  store.write path (JsObject.spread ((store path).getD []) values)

/-- The names Login.jsx binds from `firebase/database` (line 13). -/
def loginDatabaseNames : List String := ["getDatabase", "ref", "set"]

/-- The names Dashboard.jsx binds from `firebase/database` (line 4). -/
def dashboardDatabaseNames : List String := ["ref", "set", "get", "push"]

/-- Reading an identifier: a `ReferenceError` when the module does not bind it. -/
def resolveName (scope : List String) (name : String) : Except DbError Unit :=
  if name ∈ scope then .ok () else .error ⟨"", name ++ " is not defined"⟩

/-- What the clock and the record store answer to `userInstance`: two successive clock
reads, and for each kind of call the error it fails with at a path, if any. -/
structure LoginEnv where
  now : String
  nowNext : String
  getError : String → Option DbError
  setError : String → Option DbError
  updateError : String → Option DbError

/-- A call of `showNotification(type, message)`. -/
structure Notification where
  type : String
  message : String
  deriving DecidableEq, Repr

/-- The store after `userInstance` and the notifications it showed. -/
structure LoginOutcome where
  store : Store
  notifications : List Notification

/-- The outcome of a database call: it throws the error given, if any. -/
def dbCall (failure : Option DbError) : Except DbError Unit :=
  match failure with
  | some e => .error e
  | none => .ok ()

/-- The `try` block of `userInstance` (lines 40-56), in a module that binds the names in
`scope`. -/
def userInstanceTry (scope : List String) (env : LoginEnv) (user : AuthUser) (store : Store) :
    Except DbError Store := do
  resolveName scope "ref"
  resolveName scope "get"
  dbCall (env.getError ("users/" ++ user.uid))
  if (store ("users/" ++ user.uid)).isSome then
    resolveName scope "update"
    dbCall (env.updateError ("users/" ++ user.uid))
    pure (store.update ("users/" ++ user.uid) [("lastLogin", .str env.now)])
  else
    resolveName scope "set"
    dbCall (env.setError ("users/" ++ user.uid))
    pure (store.write ("users/" ++ user.uid)
      [("uid", .str user.uid), ("email", user.email),
       ("displayName", if user.displayName.truthy then user.displayName else .str "N/A"),
       ("photoURL", if user.photoURL.truthy then user.photoURL else .null),
       ("createdAt", .str env.now), ("lastLogin", .str env.nowNext)])

/-- The `catch` clause of `userInstance` (lines 58-64). -/
def saveFailureMessage (e : DbError) : String :=
  if e.code = "PERMISSION_DENIED" then
    "Database permission denied. Check your security rules in Firebase."
  else "Could not save user data."

/-- `userInstance` (lines 34-65) in a module that binds the names in `scope`; `user` is
`none` for a null user. -/
def userInstance (scope : List String) (env : LoginEnv) (user : Option AuthUser)
    (store : Store) : LoginOutcome :=
  match user with
  | none => ⟨store, [⟨"error", "Cannot save user data: Invalid user ID."⟩]⟩
  | some u =>
    if u.uid = "" then ⟨store, [⟨"error", "Cannot save user data: Invalid user ID."⟩]⟩
    else
      match userInstanceTry scope env u store with
      | .ok store' => ⟨store', []⟩
      | .error e => ⟨store, [⟨"error", saveFailureMessage e⟩]⟩

/-- The profile effect of `Dashboard` (lines 21-34), its read of the store succeeding:
a profile is written only when nothing is stored for the user. -/
def profileEffect (now : String) (user : Option User) (store : Store) : Store :=
  match user with
  | none => store
  | some u =>
    if (store ("users/" ++ u.uid)).isSome then store
    else
      store.write ("users/" ++ u.uid)
        [("email", .str u.email), ("uid", .str u.uid), ("createdAt", .str now)]

/-! ## Concrete inputs -/

/-- A picked file. -/
def photo : File := { name := "photo.jpg", size := 2048 }

/-- A second picked file. -/
def reef : File := { name := "reef.png", size := 4096 }

/-- A zero-length file. -/
def emptyFile : File := { name := "empty.jpg", size := 0 }

/-- A signed-in user. -/
def alice : User := { uid := "u1", email := "alice@example.org" }

/-- Collaborators that hand out the token `tok`, answer every request with `response`
and every append with `pushResult`. -/
def fixedEnv (response : Response) (pushResult : Except JsError Unit) : Env :=
  { baseUrl := "https://api.example.org"
    getIdToken := fun _ => .ok "tok"
    fetch := fun _ _ _ => .ok response
    now := "2024-05-01T10:00:00.000Z"
    push := fun _ _ => pushResult }

/-- The body `{original_url:"o1", enhanced_url:"e1", result_url:"r1"}`. -/
def fullBody : JsData :=
  .object [("original_url", .str "o1"), ("enhanced_url", .str "e1"), ("result_url", .str "r1")]

/-- A status-200 response carrying `fullBody`. -/
def okResponse : Response := { status := 200, json := .ok fullBody }

/-- The dashboard after picking `photo`. -/
def selectedState : DashState := (handleFileChange (some photo) DashState.initial).state

/-- The dashboard after picking `photo` and one successful upload. -/
def succeededState : DashState :=
  (handleUpload (fixedEnv okResponse (.ok ())) (some alice) selectedState).state

/-- A status-500 response whose body is `{"error": ""}`. -/
def emptyErrorResponse : Response :=
  { status := 500, json := .ok (.object [("error", .str "")]) }

/-- A status-500 response whose body is `{"error": "model unavailable"}`. -/
def modelUnavailableResponse : Response :=
  { status := 500, json := .ok (.object [("error", .str "model unavailable")]) }

/-- The body `{original_url:"o1"}`, which lacks two of the three URLs. -/
def partialBody : JsData := .object [("original_url", .str "o1")]

/-- A status-200 response carrying `partialBody`. -/
def partialResponse : Response := { status := 200, json := .ok partialBody }

/-- An append that fails. -/
def pushDenied : Except JsError Unit := .error ⟨"PERMISSION_DENIED: Permission denied"⟩

/-- The record `handleUpload` appends when the parsed body is the plain object `fields`
(lines 68-73). -/
def predictionRecord (env : Env) (fields : JsObject) : JsObject :=
  [("original_url", fields.get "original_url"), ("enhanced_url", fields.get "enhanced_url"),
   ("result_url", fields.get "result_url"), ("timestamp", .str env.now)]

/-- The failure of an append whose record holds `undefined`. -/
def pushUndefined : Except JsError Unit :=
  .error ⟨"push failed: value argument contains undefined in property 'users.u1.predictions.enhanced_url'"⟩

/-- The time values `new Date` gives for three ISO timestamps a day apart; every other
value counts as an invalid date here. -/
def sampleDate : JsVal → Option Int
  | .str "2024-05-01T10:00:00.000Z" => some 1714557600000
  | .str "2024-05-02T10:00:00.000Z" => some 1714644000000
  | .str "2024-05-03T10:00:00.000Z" => some 1714730400000
  | _ => none

/-- A stored prediction record with the given result URL and timestamp. -/
def sampleRecord (result timestamp : String) : JsObject :=
  [("original_url", .str "o"), ("enhanced_url", .str "e"), ("result_url", .str result),
   ("timestamp", .str timestamp)]

/-- A snapshot of three records, enumerated in the order second day, third day, first
day. -/
def sampleSnapshot : List (String × JsObject) :=
  [("-Nb", sampleRecord "r2" "2024-05-02T10:00:00.000Z"),
   ("-Nc", sampleRecord "r3" "2024-05-03T10:00:00.000Z"),
   ("-Na", sampleRecord "r1" "2024-05-01T10:00:00.000Z")]

/-- A record without a usable timestamp. -/
def undatedRecord : JsObject :=
  [("original_url", .str "o"), ("enhanced_url", .str "e"), ("result_url", .str "rx")]

/-- A snapshot of seven records: three of the first day, one without a timestamp, then
second day, third day, second day. The records `-N5` and `-N7` carry the same timestamp. -/
def tieSnapshot : List (String × JsObject) :=
  [("-N1", sampleRecord "r1" "2024-05-01T10:00:00.000Z"),
   ("-N2", sampleRecord "r2" "2024-05-01T10:00:00.000Z"),
   ("-N3", sampleRecord "r3" "2024-05-01T10:00:00.000Z"),
   ("-N4", undatedRecord),
   ("-N5", sampleRecord "r5" "2024-05-02T10:00:00.000Z"),
   ("-N6", sampleRecord "r6" "2024-05-03T10:00:00.000Z"),
   ("-N7", sampleRecord "r7" "2024-05-02T10:00:00.000Z")]

/-- A snapshot of four records with valid timestamps, two of them equal. -/
def validTieSnapshot : List (String × JsObject) :=
  [("-N1", sampleRecord "r1" "2024-05-01T10:00:00.000Z"),
   ("-N2", sampleRecord "r2" "2024-05-02T10:00:00.000Z"),
   ("-N3", sampleRecord "r3" "2024-05-03T10:00:00.000Z"),
   ("-N4", sampleRecord "r4" "2024-05-02T10:00:00.000Z")]

/-- The user `alice` as the identity provider returns her after sign-in. -/
def aliceSignedIn : AuthUser :=
  { uid := "u1", email := .str "alice@example.org", displayName := .str "Alice",
    photoURL := .null }

/-- A clock and a record store whose calls all succeed. -/
def calmEnv : LoginEnv :=
  { now := "2024-05-04T09:00:00.000Z", nowNext := "2024-05-04T09:00:00.001Z",
    getError := fun _ => none, setError := fun _ => none, updateError := fun _ => none }

/-- A record store with nothing in it. -/
def emptyStore : Store := fun _ => none

/-- A profile created some days earlier. -/
def oldProfile : JsObject :=
  [("uid", .str "u1"), ("email", .str "alice@example.org"),
   ("createdAt", .str "2024-05-01T08:00:00.000Z"),
   ("lastLogin", .str "2024-05-01T08:00:00.000Z")]

/-- A record store holding `oldProfile` for `u1`. -/
def returningStore : Store := emptyStore.write "users/u1" oldProfile

/-- A snapshot with one record that carries an `id` property of its own. -/
def ownIdSnapshot : List (String × JsObject) :=
  [("-N1", [("id", .str "legacy-7"), ("original_url", .str "o"),
            ("timestamp", .str "2024-05-01T10:00:00.000Z")])]

/-- Collaborators whose token fetch fails. -/
def tokenFailureEnv : Env :=
  { baseUrl := "https://api.example.org"
    getIdToken := fun _ => .error ⟨"auth/network-request-failed"⟩
    fetch := fun _ _ _ => .ok okResponse
    now := "2024-05-01T10:00:00.000Z"
    push := fun _ _ => .ok () }

/-! ## Helper lemmas -/

theorem append_ne_empty (a b : String) (h : a ≠ "") : a ++ b ≠ "" := by
  intro hab
  apply h
  have hd : (a ++ b).data = [] := by rw [hab]
  rw [String.data_append] at hd
  exact String.ext (List.append_eq_nil.mp hd).1

theorem catchError_error_ne_empty (e : JsError) (s : DashState) :
    (catchError e s).error ≠ "" := by
  unfold catchError
  by_cases h : e.message = ""
  · simp [h]
  · simp [h]

theorem phase_uploading_iff (s : DashState) : phase s = .Uploading ↔ s.loading = true := by
  unfold phase
  cases s.loading <;> cases s.imageUrls.truthy <;> cases s.selectedFile <;> simp
  split <;> simp

theorem phase_idle_iff (s : DashState) :
    phase s = .Idle ↔
      s.loading = false ∧ s.imageUrls.truthy = false ∧ s.selectedFile = none := by
  unfold phase
  cases s.loading <;> cases s.imageUrls.truthy <;> cases s.selectedFile <;> simp
  split <;> simp

/-! ## Upload guard (C1) -/

/-- C1, as stated, fails: in the state reached by one successful upload the phase is
Succeeded, not Selected, and `handleUpload` run from it sends a request to the inference
endpoint. -/
theorem resubmit_after_success_fetches :
    phase succeededState = Phase.Succeeded ∧
    phase succeededState ≠ Phase.Selected ∧
    (handleUpload (fixedEnv okResponse (.ok ())) (some alice) succeededState).calls.countP
      Call.isFetch = 1 := by
  decide

/-- C1, amended: `handleUpload` issues no call at all when no file is selected (phase Idle)
or no user is signed in; the submit button runs nothing while the phase is Idle or
Uploading, so a second click during an upload leaves the state alone and issues no call,
and two clicks in succession send at most one request to the inference endpoint, exactly
one when the first passes the prechecks and obtains its token. -/
theorem submit_guard (env : Env) (user : Option User) (s : DashState) :
    (phase s = .Idle → (handleUpload env user s).calls = []) ∧
    (s.selectedFile = none ∨ user = none → (handleUpload env user s).calls = []) ∧
    (phase s = .Idle ∨ phase s = .Uploading → clickUpload env user s = ⟨s, []⟩) ∧
    clickUpload env user (uploadingState s) = ⟨uploadingState s, []⟩ ∧
    ((clickUpload env user s).calls ++
      (clickUpload env user (uploadingState s)).calls).countP Call.isFetch ≤ 1 ∧
    (∀ u f t, user = some u → s.selectedFile = some f → s.loading = false →
      env.getIdToken u = .ok t →
      ((clickUpload env user s).calls ++
        (clickUpload env user (uploadingState s)).calls).countP Call.isFetch = 1) := by
  have hnone : s.selectedFile = none ∨ user = none → (handleUpload env user s).calls = [] := by
    intro h
    unfold handleUpload
    rcases h with h | h
    · rw [h]
    · rw [h]; cases s.selectedFile <;> rfl
  have hsecond : clickUpload env user (uploadingState s) = ⟨uploadingState s, []⟩ := by
    simp [clickUpload, uploadingState]
  have hcount : ∀ (u : User) (f : File) (st : DashState),
      (uploadTry env u f st).calls.countP Call.isFetch ≤ 1 ∧
      (∀ t, env.getIdToken u = .ok t →
        (uploadTry env u f st).calls.countP Call.isFetch = 1) := by
    intro u f st
    unfold uploadTry
    cases ht : env.getIdToken u with
    | error e => simp [Call.isFetch]
    | ok t =>
      simp only []
      cases hr : env.fetch (url env) f t with
      | error e => simp [Call.isFetch]
      | ok response =>
        simp only []
        constructor
        · split
          · split <;> [simp [Call.isFetch]; (split <;> simp [Call.isFetch])]
          · split
            · simp [Call.isFetch]
            · split
              · split <;> simp [Call.isFetch, List.countP_append, List.countP_cons]
              all_goals simp [Call.isFetch]
        · intro t' _
          split
          · split <;> [simp [Call.isFetch]; (split <;> simp [Call.isFetch])]
          · split
            · simp [Call.isFetch]
            · split
              · split <;> simp [Call.isFetch, List.countP_append, List.countP_cons]
              all_goals simp [Call.isFetch]
  refine ⟨?_, hnone, ?_, hsecond, ?_, ?_⟩
  · intro h
    exact hnone (Or.inl ((phase_idle_iff s).mp h).2.2)
  · intro h
    unfold clickUpload
    rcases h with h | h
    · simp [((phase_idle_iff s).mp h).2.2]
    · simp [(phase_uploading_iff s).mp h]
  · rw [hsecond, List.append_nil]
    unfold clickUpload
    split
    · simp
    · unfold handleUpload
      cases hsel : s.selectedFile with
      | none => simp
      | some f =>
        cases user with
        | none => simp
        | some u => exact (hcount u f (uploadingState s)).1
  · intro u f t hu hf hl ht
    rw [hsecond, List.append_nil]
    unfold clickUpload
    simp only [hl, hf, hu, Option.isNone_some, Bool.or_self, Bool.false_eq_true, ↓reduceIte]
    unfold handleUpload
    simp only [hf]
    exact (hcount u f (uploadingState s)).2 t ht

/-- A second click while the first upload of `photo` is in flight: the phase is Uploading
and the click neither changes the state nor issues a call. -/
theorem submit_guard_witness :
    phase (uploadingState selectedState) = Phase.Uploading ∧
    clickUpload (fixedEnv okResponse (.ok ())) (some alice) (uploadingState selectedState) =
      ⟨uploadingState selectedState, []⟩ :=
  ⟨by decide,
   (submit_guard (fixedEnv okResponse (.ok ())) (some alice)
      (uploadingState selectedState)).2.2.1 (Or.inr (by decide))⟩

/-! ## Prechecks (C2, C3) -/

/-- C2: with a file selected and no current user, `handleUpload` only sets the error
message `You must be logged in.`: the other state cells are untouched and no collaborator
call (token fetch, inference request, append) is issued. -/
theorem handleUpload_anonymous (env : Env) (s : DashState) (f : File)
    (hf : s.selectedFile = some f) :
    (handleUpload env none s).state.error = "You must be logged in." ∧
    (handleUpload env none s).calls = [] ∧
    (handleUpload env none s).state.selectedFile = s.selectedFile ∧
    (handleUpload env none s).state.imageUrls = s.imageUrls ∧
    (handleUpload env none s).state.loading = s.loading := by
  unfold handleUpload
  rw [hf]
  exact ⟨rfl, rfl, rfl, rfl, rfl⟩

/-- An anonymous submit with `photo` selected. -/
theorem handleUpload_anonymous_witness :
    selectedState.selectedFile = some photo ∧
    (handleUpload (fixedEnv okResponse (.ok ())) none selectedState).state.error =
      "You must be logged in." ∧
    (handleUpload (fixedEnv okResponse (.ok ())) none selectedState).calls = [] :=
  ⟨by decide,
   (handleUpload_anonymous (fixedEnv okResponse (.ok ())) selectedState photo (by decide)).1,
   (handleUpload_anonymous (fixedEnv okResponse (.ok ())) selectedState photo (by decide)).2.1⟩

/-- C3: with no file selected, `handleUpload` sets the error message
`Please select an image file first.`, issues no call (no network request, no append), and
leaves `selectedFile`, the result and the in-flight flag as they were, whoever the user
is. -/
theorem handleUpload_no_file (env : Env) (user : Option User) (s : DashState)
    (hf : s.selectedFile = none) :
    (handleUpload env user s).state.error = "Please select an image file first." ∧
    (handleUpload env user s).calls = [] ∧
    (handleUpload env user s).state.selectedFile = s.selectedFile ∧
    (handleUpload env user s).state.imageUrls = s.imageUrls ∧
    (handleUpload env user s).state.loading = s.loading := by
  unfold handleUpload
  rw [hf]
  exact ⟨rfl, rfl, rfl, rfl, rfl⟩

/-- A submit on the freshly mounted dashboard. -/
theorem handleUpload_no_file_witness :
    DashState.initial.selectedFile = none ∧
    (handleUpload (fixedEnv okResponse (.ok ())) (some alice) DashState.initial).state.error =
      "Please select an image file first." ∧
    (handleUpload (fixedEnv okResponse (.ok ())) (some alice) DashState.initial).calls = [] :=
  ⟨rfl,
   (handleUpload_no_file (fixedEnv okResponse (.ok ())) (some alice) DashState.initial rfl).1,
   (handleUpload_no_file (fixedEnv okResponse (.ok ())) (some alice) DashState.initial rfl).2.1⟩

/-! ## Upload outcomes (C4-C7) -/

/-- What `handleUpload` does once the inference endpoint has answered with a non-success
status. -/
theorem handleUpload_not_ok (env : Env) (u : User) (f : File) (s : DashState) (t : String)
    (response : Response) (hf : s.selectedFile = some f) (ht : env.getIdToken u = .ok t)
    (hr : env.fetch (url env) f t = .ok response) (hs : response.ok = false) :
    ∃ e : JsError,
      handleUpload env (some u) s =
        ⟨{ catchError e (uploadingState s) with loading := false },
         [Call.getIdToken u.uid, Call.fetch (url env) f t]⟩ ∧
      (∀ d v, response.json = .ok d → d.getProp "error" = .ok v →
        e.message = if v.truthy then v.toStr else "Server error: " ++ toString response.status) ∧
      (∀ err, response.json = .error err →
        e.message = "Server error: " ++ toString response.status) := by
  unfold handleUpload
  simp only [hf]
  unfold uploadTry
  simp only [ht, hr, hs, Bool.not_false, ↓reduceIte]
  cases hj : response.json with
  | error err =>
    refine ⟨⟨"Server error: " ++ toString response.status⟩, ?_, ?_, ?_⟩
    · simp [JsData.getProp, JsObject.get, JsVal.truthy]
    · intro d v hd; cases hd
    · intro _ _; rfl
  | ok d =>
    simp only []
    cases hg : d.getProp "error" with
    | error e =>
      refine ⟨e, ?_, ?_, ?_⟩
      · rfl
      · intro d' v hd hv
        cases hd
        rw [hg] at hv
        cases hv
      · intro err herr; cases herr
    | ok v =>
      refine ⟨⟨if v.truthy then v.toStr else "Server error: " ++ toString response.status⟩,
        ?_, ?_, ?_⟩
      · by_cases htr : v.truthy = true <;> simp [htr]
      · intro d' v' hd hv
        cases hd
        rw [hg] at hv
        cases hv
        rfl
      · intro err herr; cases herr

/-- What `handleUpload` does once the inference endpoint has answered with a success status
and a body that parses to a plain object. -/
theorem handleUpload_ok_object (env : Env) (u : User) (f : File) (s : DashState) (t : String)
    (response : Response) (fields : JsObject) (hf : s.selectedFile = some f)
    (ht : env.getIdToken u = .ok t) (hr : env.fetch (url env) f t = .ok response)
    (hs : response.ok = true) (hj : response.json = .ok (.object fields)) :
    handleUpload env (some u) s =
      ⟨{ (match env.push (predictionsPath u) (predictionRecord env fields) with
          | .ok _ => { uploadingState s with imageUrls := .object fields }
          | .error e => catchError e { uploadingState s with imageUrls := .object fields })
          with loading := false },
       [Call.getIdToken u.uid, Call.fetch (url env) f t,
        Call.push (predictionsPath u) (predictionRecord env fields)]⟩ := by
  unfold handleUpload
  simp only [hf]
  unfold uploadTry
  simp only [ht, hr, hs, hj, Bool.not_true, Bool.false_eq_true, ↓reduceIte, JsData.getProp]
  cases hp : env.push (predictionsPath u) (predictionRecord env fields) with
  | error e => simp [predictionRecord] at hp ⊢; simp [hp]
  | ok x => simp [predictionRecord] at hp ⊢; simp [hp]

/-- C4, as stated, fails: for a status-500 response whose body is `{"error": ""}` the body
carries an `error` field, yet the error message is `Server error: 500`, not that field. -/
theorem empty_error_field_falls_back :
    emptyErrorResponse.ok = false ∧
    emptyErrorResponse.json = .ok (.object [("error", .str "")]) ∧
    (handleUpload (fixedEnv emptyErrorResponse (.ok ())) (some alice) selectedState).state.error =
      "Server error: 500" ∧
    (handleUpload (fixedEnv emptyErrorResponse (.ok ())) (some alice) selectedState).state.error ≠
      "" :=
  ⟨by decide, rfl, by decide, by decide⟩

/-- C4, amended: after a response with a non-success status, `handleUpload` ends in phase
Failed with the result null and no append issued; the error message is the body's `error`
field when the body is a JSON object carrying a non-empty string there, and it is
`Server error: ` followed by the status when the body parses to anything but `null` and its
`error` is absent or falsy (empty string included), or when the body does not parse. -/
theorem upload_server_error (env : Env) (u : User) (f : File) (s : DashState) (t : String)
    (response : Response) (hf : s.selectedFile = some f) (ht : env.getIdToken u = .ok t)
    (hr : env.fetch (url env) f t = .ok response) (hs : response.ok = false) :
    phase (handleUpload env (some u) s).state = .Failed ∧
    (handleUpload env (some u) s).state.imageUrls = noResult ∧
    (handleUpload env (some u) s).calls.countP Call.isPush = 0 ∧
    (∀ fields m, response.json = .ok (.object fields) → fields.get "error" = .str m →
      m ≠ "" → (handleUpload env (some u) s).state.error = m) ∧
    (∀ d v, response.json = .ok d → d.getProp "error" = .ok v → v.truthy = false →
      (handleUpload env (some u) s).state.error =
        "Server error: " ++ toString response.status) ∧
    (∀ err, response.json = .error err →
      (handleUpload env (some u) s).state.error =
        "Server error: " ++ toString response.status) := by
  obtain ⟨e, he, hbody, hfail⟩ := handleUpload_not_ok env u f s t response hf ht hr hs
  have hne : ("Server error: " ++ toString response.status) ≠ "" :=
    append_ne_empty _ _ (by decide)
  rw [he]
  refine ⟨?_, rfl, by simp [Call.isPush], ?_, ?_, ?_⟩
  · simp only [phase, catchError, uploadingState, noResult, JsData.truthy, JsVal.truthy, hf]
    by_cases hm : e.message = "" <;> simp [hm]
  · intro fields m hj hm hm0
    have := hbody (.object fields) (.str m) hj (by simp [JsData.getProp, hm])
    simp [catchError, this, JsVal.truthy, JsVal.toStr, hm0]
  · intro d v hj hv htr
    have := hbody d v hj hv
    simp [catchError, this, htr, hne]
  · intro err hj
    have := hfail err hj
    simp [catchError, this, hne]

/-- The scenario of the specification: status 500 with body `{"error":"model unavailable"}`
ends in Failed with that message and no append. -/
theorem upload_server_error_witness :
    phase (handleUpload (fixedEnv modelUnavailableResponse (.ok ())) (some alice)
      selectedState).state = Phase.Failed ∧
    (handleUpload (fixedEnv modelUnavailableResponse (.ok ())) (some alice)
      selectedState).state.error = "model unavailable" :=
  have h := upload_server_error (fixedEnv modelUnavailableResponse (.ok ())) alice photo
    selectedState "tok" modelUnavailableResponse (by decide) rfl rfl (by decide)
  ⟨h.1, h.2.2.2.1 [("error", .str "model unavailable")] "model unavailable" rfl (by decide)
    (by decide)⟩

/-- C5: when the inference endpoint answers with a success status and a body that parses to
an object, `handleUpload` reaches Succeeded, shows that object as the result, and issues
exactly one append, to `users/{uid}/predictions`, whose `original_url`, `enhanced_url` and
`result_url` are those of the parsed body and whose `timestamp` is the current time. -/
theorem append_follows_success (env : Env) (u : User) (f : File) (s : DashState) (t : String)
    (response : Response) (fields : JsObject) (hf : s.selectedFile = some f)
    (ht : env.getIdToken u = .ok t) (hr : env.fetch (url env) f t = .ok response)
    (hs : response.ok = true) (hj : response.json = .ok (.object fields)) :
    phase (handleUpload env (some u) s).state = .Succeeded ∧
    (handleUpload env (some u) s).state.imageUrls = .object fields ∧
    (handleUpload env (some u) s).calls.filter Call.isPush =
      [Call.push ("users/" ++ u.uid ++ "/predictions") (predictionRecord env fields)] ∧
    (predictionRecord env fields).get "original_url" = fields.get "original_url" ∧
    (predictionRecord env fields).get "enhanced_url" = fields.get "enhanced_url" ∧
    (predictionRecord env fields).get "result_url" = fields.get "result_url" ∧
    (predictionRecord env fields).get "timestamp" = .str env.now := by
  rw [handleUpload_ok_object env u f s t response fields hf ht hr hs hj]
  refine ⟨?_, ?_, ?_, ?_, ?_, ?_, ?_⟩
  · cases env.push (predictionsPath u) (predictionRecord env fields) <;>
      simp [phase, catchError, uploadingState, JsData.truthy]
  · cases env.push (predictionsPath u) (predictionRecord env fields) <;>
      simp [catchError, uploadingState]
  · simp [List.filter, Call.isPush, predictionsPath]
  all_goals simp [predictionRecord, JsObject.get, List.lookup]

/-- The scenario of the specification: `photo` is submitted and the endpoint answers 200
with `o1`, `e1`, `r1`; one record with those URLs is appended under `users/u1/predictions`. -/
theorem append_follows_success_witness :
    phase (handleUpload (fixedEnv okResponse (.ok ())) (some alice) selectedState).state =
      Phase.Succeeded ∧
    (handleUpload (fixedEnv okResponse (.ok ())) (some alice) selectedState).calls.filter
        Call.isPush =
      [Call.push "users/u1/predictions"
        [("original_url", .str "o1"), ("enhanced_url", .str "e1"), ("result_url", .str "r1"),
         ("timestamp", .str "2024-05-01T10:00:00.000Z")]] :=
  have h := append_follows_success (fixedEnv okResponse (.ok ())) alice photo selectedState
    "tok" okResponse [("original_url", .str "o1"), ("enhanced_url", .str "e1"),
      ("result_url", .str "r1")] (by decide) rfl rfl (by decide) rfl
  ⟨h.1, h.2.2.1⟩

/-- C6: when the inference call succeeds with an object body and the append that follows
fails, the final state is still in phase Succeeded with the parsed body as the result, and
the failure is shown in the error message (its own message, or `An unknown error occurred.`
when it has none). -/
theorem append_failure_keeps_result (env : Env) (u : User) (f : File) (s : DashState)
    (t : String) (response : Response) (fields : JsObject) (e : JsError)
    (hf : s.selectedFile = some f) (ht : env.getIdToken u = .ok t)
    (hr : env.fetch (url env) f t = .ok response) (hs : response.ok = true)
    (hj : response.json = .ok (.object fields))
    (hp : env.push (predictionsPath u) (predictionRecord env fields) = .error e) :
    phase (handleUpload env (some u) s).state = .Succeeded ∧
    (handleUpload env (some u) s).state.imageUrls = .object fields ∧
    (handleUpload env (some u) s).state.loading = false ∧
    (handleUpload env (some u) s).state.error =
      (if e.message = "" then "An unknown error occurred." else e.message) ∧
    (handleUpload env (some u) s).state.error ≠ "" := by
  rw [handleUpload_ok_object env u f s t response fields hf ht hr hs hj, hp]
  refine ⟨?_, ?_, rfl, ?_, ?_⟩
  · simp [phase, catchError, uploadingState, JsData.truthy]
  · simp [catchError, uploadingState]
  · by_cases hm : e.message = "" <;> simp [catchError, hm]
  · exact catchError_error_ne_empty e { uploadingState s with imageUrls := .object fields }

/-- A successful inference call followed by a denied append. -/
theorem append_failure_keeps_result_witness :
    phase (handleUpload (fixedEnv okResponse pushDenied) (some alice) selectedState).state =
      Phase.Succeeded ∧
    (handleUpload (fixedEnv okResponse pushDenied) (some alice) selectedState).state.imageUrls =
      fullBody ∧
    (handleUpload (fixedEnv okResponse pushDenied) (some alice) selectedState).state.error =
      "PERMISSION_DENIED: Permission denied" :=
  have h := append_failure_keeps_result (fixedEnv okResponse pushDenied) alice photo
    selectedState "tok" okResponse [("original_url", .str "o1"), ("enhanced_url", .str "e1"),
      ("result_url", .str "r1")] ⟨"PERMISSION_DENIED: Permission denied"⟩
    (by decide) rfl rfl (by decide) rfl rfl
  ⟨h.1, h.2.1, h.2.2.2.1⟩

/-- C7, as stated, fails: for a status-200 response whose body `{original_url:"o1"}` lacks
two URLs, the result cell is nevertheless set to that incomplete body, an append is issued
for it, and the final phase is Succeeded rather than Failed. -/
theorem incomplete_body_is_shown :
    partialResponse.ok = true ∧
    (handleUpload (fixedEnv partialResponse pushUndefined) (some alice)
      selectedState).state.imageUrls = partialBody ∧
    (handleUpload (fixedEnv partialResponse pushUndefined) (some alice)
      selectedState).state.imageUrls ≠ noResult ∧
    phase (handleUpload (fixedEnv partialResponse pushUndefined) (some alice)
      selectedState).state = Phase.Succeeded ∧
    (handleUpload (fixedEnv partialResponse pushUndefined) (some alice)
      selectedState).calls.countP Call.isPush = 1 := by
  decide

/-- C7, amended: for a success-status response whose body is a JSON object lacking at least
one of the three URLs, `handleUpload` makes no completeness check: the result is set to the
body as it is, the phase ends Succeeded, exactly one append is issued whose record carries
`undefined` for each missing URL, and the error message is empty when that append is
accepted and non-empty when it fails. -/
theorem upload_incomplete_body (env : Env) (u : User) (f : File) (s : DashState) (t : String)
    (response : Response) (fields : JsObject) (hf : s.selectedFile = some f)
    (ht : env.getIdToken u = .ok t) (hr : env.fetch (url env) f t = .ok response)
    (hs : response.ok = true) (hj : response.json = .ok (.object fields))
    (hmiss : fields.lookup "original_url" = none ∨ fields.lookup "enhanced_url" = none ∨
      fields.lookup "result_url" = none) :
    (handleUpload env (some u) s).state.imageUrls = .object fields ∧
    phase (handleUpload env (some u) s).state = .Succeeded ∧
    (handleUpload env (some u) s).calls.filter Call.isPush =
      [Call.push (predictionsPath u) (predictionRecord env fields)] ∧
    (∀ k, k = "original_url" ∨ k = "enhanced_url" ∨ k = "result_url" →
      fields.lookup k = none → (predictionRecord env fields).get k = .undefined) ∧
    ((predictionRecord env fields).get "original_url" = .undefined ∨
      (predictionRecord env fields).get "enhanced_url" = .undefined ∨
      (predictionRecord env fields).get "result_url" = .undefined) ∧
    ((handleUpload env (some u) s).state.error = "" ↔
      env.push (predictionsPath u) (predictionRecord env fields) = .ok ()) := by
  have hget : ∀ k, k = "original_url" ∨ k = "enhanced_url" ∨ k = "result_url" →
      fields.lookup k = none → (predictionRecord env fields).get k = .undefined := by
    intro k hk hnone
    rcases hk with rfl | rfl | rfl <;>
      simp [predictionRecord, JsObject.get, List.lookup, hnone]
  rw [handleUpload_ok_object env u f s t response fields hf ht hr hs hj]
  refine ⟨?_, ?_, ?_, hget, ?_, ?_⟩
  · cases env.push (predictionsPath u) (predictionRecord env fields) <;>
      simp [catchError, uploadingState]
  · cases env.push (predictionsPath u) (predictionRecord env fields) <;>
      simp [phase, catchError, uploadingState, JsData.truthy]
  · simp [List.filter, Call.isPush]
  · rcases hmiss with h | h | h
    · exact Or.inl (hget _ (Or.inl rfl) h)
    · exact Or.inr (Or.inl (hget _ (Or.inr (Or.inl rfl)) h))
    · exact Or.inr (Or.inr (hget _ (Or.inr (Or.inr rfl)) h))
  · cases hp : env.push (predictionsPath u) (predictionRecord env fields) with
    | error e =>
      have := catchError_error_ne_empty e { uploadingState s with imageUrls := .object fields }
      simp [this]
    | ok x => simp [uploadingState]

/-- The body `{original_url:"o1"}` answered with status 200: it is shown as the result and
the record appended for it has no `enhanced_url`. -/
theorem upload_incomplete_body_witness :
    (handleUpload (fixedEnv partialResponse (.ok ())) (some alice)
      selectedState).state.imageUrls = partialBody ∧
    (predictionRecord (fixedEnv partialResponse (.ok ()))
      [("original_url", .str "o1")]).get "enhanced_url" = JsVal.undefined :=
  have h := upload_incomplete_body (fixedEnv partialResponse (.ok ())) alice photo
    selectedState "tok" partialResponse [("original_url", .str "o1")]
    (by decide) rfl rfl (by decide) rfl (Or.inr (Or.inl (by decide)))
  ⟨h.1, h.2.2.2.1 "enhanced_url" (Or.inr (Or.inl rfl)) (by decide)⟩

/-! ## File selection (C8, C9) -/

/-- C8, as stated, fails: picking a file while an upload is in flight leaves the in-flight
flag set, so the phase afterwards is Uploading, not Selected. -/
theorem select_while_uploading_stays_uploading :
    phase (uploadingState selectedState) = Phase.Uploading ∧
    phase (handleFileChange (some reef) (uploadingState selectedState)).state =
      Phase.Uploading ∧
    phase (handleFileChange (some reef) (uploadingState selectedState)).state ≠
      Phase.Selected := by
  decide

/-- C8, amended: for every state and every file `f`, `handleFileChange` sets
`selectedFile` to `f`, the result to null and the error message to empty, leaves the
in-flight flag as it was and issues no call; the phase afterwards is Selected when no
upload is in flight (from Idle, Selected, Succeeded, Failed) and stays Uploading
otherwise. -/
theorem handleFileChange_selects (s : DashState) (f : File) :
    (handleFileChange (some f) s).state.selectedFile = some f ∧
    (handleFileChange (some f) s).state.imageUrls = noResult ∧
    (handleFileChange (some f) s).state.error = "" ∧
    (handleFileChange (some f) s).state.loading = s.loading ∧
    (handleFileChange (some f) s).calls = [] ∧
    phase (handleFileChange (some f) s).state =
      (if s.loading then Phase.Uploading else Phase.Selected) := by
  refine ⟨rfl, rfl, rfl, rfl, rfl, ?_⟩
  cases hl : s.loading <;>
    simp [handleFileChange, phase, hl, noResult, JsData.truthy, JsVal.truthy]

/-- C9, as stated, fails: a zero-length file is not rejected; picking it on the fresh
dashboard stores it as the selection and moves the phase from Idle to Selected. -/
theorem empty_file_is_selected :
    emptyFile.size = 0 ∧
    phase DashState.initial = Phase.Idle ∧
    (handleFileChange (some emptyFile) DashState.initial).state.selectedFile = some emptyFile ∧
    phase (handleFileChange (some emptyFile) DashState.initial).state = Phase.Selected := by
  decide

/-- C9, amended: when the file list is empty (no file), `handleFileChange` does nothing:
the whole state (selection, result, in-flight flag, error message, hence the phase) is left
as it was, no error is raised or shown and no call is issued; a file of any length, zero
included, is taken as the selection. -/
theorem handleFileChange_no_file (s : DashState) :
    handleFileChange none s = ⟨s, []⟩ ∧
    phase (handleFileChange none s).state = phase s ∧
    (∀ f : File, f.size = 0 → (handleFileChange (some f) s).state.selectedFile = some f) := by
  exact ⟨rfl, rfl, fun _ _ => rfl⟩

/-! ## History order (C10) -/

theorem lookup_cons_ite (k k1 : String) (v1 : JsVal) (rest : JsObject) :
    List.lookup k ((k1, v1) :: rest) = if k = k1 then some v1 else List.lookup k rest := by
  by_cases h : k = k1
  · subst h; simp
  · have hb : (k == k1) = false := by simpa using h
    simp [List.lookup, hb, h]

theorem JsObject.get_cons (k k1 : String) (v1 : JsVal) (rest : JsObject) :
    JsObject.get ((k1, v1) :: rest) k = if k = k1 then v1 else JsObject.get rest k := by
  unfold JsObject.get
  rw [lookup_cons_ite]
  by_cases h : k = k1 <;> simp [h]

theorem JsObject.get_set (o : JsObject) (k : String) (v : JsVal) (k' : String) :
    (JsObject.set o k v).get k' = if k' = k then v else o.get k' := by
  induction o with
  | nil =>
    unfold JsObject.set
    rw [JsObject.get_cons]
  | cons kv rest ih =>
    obtain ⟨k1, v1⟩ := kv
    unfold JsObject.set
    by_cases h1 : k1 = k
    · subst h1
      simp only [↓reduceIte]
      rw [JsObject.get_cons, JsObject.get_cons]
      by_cases h : k' = k1 <;> simp [h]
    · simp only [h1, ↓reduceIte]
      rw [JsObject.get_cons, JsObject.get_cons, ih]
      by_cases h : k' = k
      · subst h
        have hne : ¬ k' = k1 := fun e => h1 e.symm
        simp [hne]
      · simp [h]

theorem JsObject.get_spread (src : JsObject) (hu : src.uniqueKeys) (target : JsObject)
    (k : String) :
    (JsObject.spread target src).get k = (src.lookup k).getD (target.get k) := by
  induction src generalizing target with
  | nil => simp [JsObject.spread]
  | cons kv rest ih =>
    obtain ⟨k1, v1⟩ := kv
    have hu' : JsObject.uniqueKeys rest := (List.nodup_cons.mp hu).2
    have hnot : k1 ∉ rest.map Prod.fst := (List.nodup_cons.mp hu).1
    have hstep : JsObject.spread target ((k1, v1) :: rest) =
        JsObject.spread (JsObject.set target k1 v1) rest := rfl
    rw [hstep, ih hu', JsObject.get_set, lookup_cons_ite]
    by_cases h : k = k1
    · subst h
      have hnone : List.lookup k rest = none := by
        rw [List.lookup_eq_none_iff]
        intro p hp
        have hne : k ≠ p.1 := fun e => hnot (e ▸ List.mem_map_of_mem Prod.fst hp)
        simpa using hne
      simp [hnone]
    · simp [h]

theorem historyEntry_timestamp (key : String) (record : JsObject) (hu : record.uniqueKeys) :
    (historyEntry key record).get "timestamp" = record.get "timestamp" := by
  unfold historyEntry
  rw [JsObject.get_spread record hu, JsObject.get_cons]
  cases h : List.lookup "timestamp" record <;> simp [JsObject.get, h]

theorem sortsBefore_iff (dateOf : JsVal → Option Int) (a b : JsObject)
    (ha : (entryTime dateOf a).isSome) (hb : (entryTime dateOf b).isSome) :
    sortsBefore dateOf a b ↔ timeKey dateOf b ≤ timeKey dateOf a := by
  unfold sortsBefore compareByTimestamp timeKey
  unfold entryTime at ha hb ⊢
  cases h1 : dateOf (a.get "timestamp") with
  | none => simp [h1] at ha
  | some ta =>
    cases h2 : dateOf (b.get "timestamp") with
    | none => simp [h2] at hb
    | some tb => simp

theorem orderedInsert_descending (dateOf : JsVal → Option Int) (a : JsObject) :
    ∀ l : List JsObject, (entryTime dateOf a).isSome →
      (∀ e ∈ l, (entryTime dateOf e).isSome) →
      l.Pairwise (fun x y => timeKey dateOf y ≤ timeKey dateOf x) →
      (l.orderedInsert (sortsBefore dateOf) a).Pairwise
        (fun x y => timeKey dateOf y ≤ timeKey dateOf x)
  | [], _, _, _ => by simp
  | b :: l, ha, hl, hs => by
    have hb : (entryTime dateOf b).isSome := hl b (List.mem_cons_self b l)
    have hl' : ∀ e ∈ l, (entryTime dateOf e).isSome :=
      fun e he => hl e (List.mem_cons_of_mem b he)
    obtain ⟨hbl, hs'⟩ := List.pairwise_cons.mp hs
    by_cases hab : sortsBefore dateOf a b
    · rw [List.orderedInsert_of_le _ _ hab]
      have hba : timeKey dateOf b ≤ timeKey dateOf a :=
        (sortsBefore_iff dateOf a b ha hb).mp hab
      refine List.pairwise_cons.mpr ⟨?_, hs⟩
      intro c hc
      rcases List.mem_cons.mp hc with rfl | hc
      · exact hba
      · exact le_trans (hbl c hc) hba
    · have hlt : timeKey dateOf a < timeKey dateOf b := by
        have := (sortsBefore_iff dateOf a b ha hb).not.mp hab
        omega
      have hstep : (b :: l).orderedInsert (sortsBefore dateOf) a =
          b :: l.orderedInsert (sortsBefore dateOf) a := by
        simp [List.orderedInsert, hab]
      rw [hstep]
      refine List.pairwise_cons.mpr ⟨?_, orderedInsert_descending dateOf a l ha hl' hs'⟩
      intro c hc
      rcases (List.mem_orderedInsert _).mp hc with rfl | hc
      · exact le_of_lt hlt
      · exact hbl c hc

theorem insertionSort_descending (dateOf : JsVal → Option Int) :
    ∀ l : List JsObject, (∀ e ∈ l, (entryTime dateOf e).isSome) →
      (l.insertionSort (sortsBefore dateOf)).Pairwise
        (fun x y => timeKey dateOf y ≤ timeKey dateOf x)
  | [], _ => by simp
  | a :: l, hl => by
    have hl' : ∀ e ∈ l, (entryTime dateOf e).isSome :=
      fun e he => hl e (List.mem_cons_of_mem a he)
    rw [List.insertionSort]
    refine orderedInsert_descending dateOf a _ (hl a (List.mem_cons_self a l)) ?_
      (insertionSort_descending dateOf l hl')
    intro e he
    exact hl' e ((List.mem_insertionSort _).mp he)

theorem insertionSort_strictly_descending (dateOf : JsVal → Option Int) (l : List JsObject)
    (hl : ∀ e ∈ l, (entryTime dateOf e).isSome)
    (hd : l.Pairwise (fun x y => timeKey dateOf x ≠ timeKey dateOf y)) :
    (l.insertionSort (sortsBefore dateOf)).Pairwise
      (fun x y => timeKey dateOf y < timeKey dateOf x) := by
  have hperm := List.perm_insertionSort (sortsBefore dateOf) l
  have hd' : (l.insertionSort (sortsBefore dateOf)).Pairwise
      (fun x y => timeKey dateOf x ≠ timeKey dateOf y) :=
    (hperm.pairwise_iff (fun h => Ne.symm h)).mpr hd
  exact (insertionSort_descending dateOf l hl).imp₂
    (fun x y hle hne => lt_of_le_of_ne hle (Ne.symm hne)) hd'

theorem insertionSort_perm_invariant (dateOf : JsVal → Option Int) (l l' : List JsObject)
    (hp : l'.Perm l) (hl : ∀ e ∈ l, (entryTime dateOf e).isSome)
    (hd : l.Pairwise (fun x y => timeKey dateOf x ≠ timeKey dateOf y)) :
    l'.insertionSort (sortsBefore dateOf) = l.insertionSort (sortsBefore dateOf) := by
  have hl' : ∀ e ∈ l', (entryTime dateOf e).isSome := fun e he => hl e (hp.mem_iff.mp he)
  have hd' : l'.Pairwise (fun x y => timeKey dateOf x ≠ timeKey dateOf y) :=
    (hp.pairwise_iff (fun h => Ne.symm h)).mpr hd
  have h1 := insertionSort_strictly_descending dateOf l hl hd
  have h2 := insertionSort_strictly_descending dateOf l' hl' hd'
  haveI : IsAntisymm JsObject (fun x y => timeKey dateOf y < timeKey dateOf x) :=
    ⟨fun x y hxy hyx => absurd hxy (not_lt_of_gt hyx)⟩
  refine List.eq_of_perm_of_sorted ?_ h2 h1
  exact ((List.perm_insertionSort _ l').trans hp).trans (List.perm_insertionSort _ l).symm

/-- C10: for a snapshot whose records carry valid, pairwise-distinct timestamps, the list
the `onValue` callback stores holds exactly the snapshot's entries, in strictly descending
timestamp order, and it is the same list whatever the order in which the snapshot's keys are
enumerated. -/
theorem history_strictly_descending (dateOf : JsVal → Option Int)
    (data : List (String × JsObject)) (s : HistoryState)
    (hkeys : ∀ kv ∈ data, kv.2.uniqueKeys)
    (hvalid : ∀ kv ∈ data, (dateOf (kv.2.get "timestamp")).isSome)
    (hdistinct : data.Pairwise
      (fun x y => dateOf (x.2.get "timestamp") ≠ dateOf (y.2.get "timestamp"))) :
    (onValue dateOf (some data) s).history.Perm (historyEntries data) ∧
    (onValue dateOf (some data) s).history.Pairwise
      (fun a b => ∃ ta tb, dateOf (a.get "timestamp") = some ta ∧
        dateOf (b.get "timestamp") = some tb ∧ tb < ta) ∧
    (∀ data' : List (String × JsObject), data'.Perm data →
      (onValue dateOf (some data') s).history = (onValue dateOf (some data) s).history) := by
  have htime : ∀ kv ∈ data,
      entryTime dateOf (historyEntry kv.1 kv.2) = dateOf (kv.2.get "timestamp") := by
    intro kv hkv
    unfold entryTime
    rw [historyEntry_timestamp kv.1 kv.2 (hkeys kv hkv)]
  have hl : ∀ e ∈ historyEntries data, (entryTime dateOf e).isSome := by
    intro e he
    obtain ⟨kv, hkv, rfl⟩ := List.mem_map.mp he
    rw [htime kv hkv]
    exact hvalid kv hkv
  have hd : (historyEntries data).Pairwise
      (fun x y => timeKey dateOf x ≠ timeKey dateOf y) := by
    unfold historyEntries
    rw [List.pairwise_map]
    refine hdistinct.imp_of_mem ?_
    intro x y hx hy hne
    unfold timeKey
    rw [htime x hx, htime y hy]
    have hvx := hvalid x hx
    have hvy := hvalid y hy
    cases hx' : dateOf (x.2.get "timestamp") with
    | none => simp [hx'] at hvx
    | some tx =>
      cases hy' : dateOf (y.2.get "timestamp") with
      | none => simp [hy'] at hvy
      | some ty =>
        rw [hx', hy'] at hne
        intro h
        apply hne
        simpa using h
  refine ⟨List.perm_insertionSort _ _, ?_, ?_⟩
  · have hstrict := insertionSort_strictly_descending dateOf (historyEntries data) hl hd
    refine hstrict.imp_of_mem ?_
    intro a b ha hb hlt
    have hva := hl a ((List.mem_insertionSort _).mp ha)
    have hvb := hl b ((List.mem_insertionSort _).mp hb)
    unfold timeKey at hlt
    unfold entryTime at hva hvb hlt
    cases ha' : dateOf (a.get "timestamp") with
    | none => simp [ha'] at hva
    | some ta =>
      cases hb' : dateOf (b.get "timestamp") with
      | none => simp [hb'] at hvb
      | some tb =>
        rw [ha', hb'] at hlt
        exact ⟨ta, tb, rfl, rfl, by simpa using hlt⟩
  · intro data' hp
    exact insertionSort_perm_invariant dateOf (historyEntries data) (historyEntries data')
      (hp.map _) hl hd

/-- Three records a day apart, enumerated as second, third, first: the stored history is
third, second, first. -/
theorem history_strictly_descending_witness :
    (∀ kv ∈ sampleSnapshot, kv.2.uniqueKeys) ∧
    (∀ kv ∈ sampleSnapshot, (sampleDate (kv.2.get "timestamp")).isSome) ∧
    (onValue sampleDate (some sampleSnapshot) ⟨[], true⟩).history.map
        (fun e => e.get "result_url") = [.str "r3", .str "r2", .str "r1"] ∧
    (onValue sampleDate (some sampleSnapshot) ⟨[], true⟩).history.Pairwise
      (fun a b => ∃ ta tb, sampleDate (a.get "timestamp") = some ta ∧
        sampleDate (b.get "timestamp") = some tb ∧ tb < ta) :=
  ⟨by decide, by decide, by decide,
   (history_strictly_descending sampleDate sampleSnapshot ⟨[], true⟩ (by decide) (by decide)
      (by decide)).2.1⟩

/-! ## V8's sort on dated entries -/

theorem compareValue_eq (dateOf : JsVal → Option Int) (a b : JsObject)
    (ha : (entryTime dateOf a).isSome) (hb : (entryTime dateOf b).isSome) :
    compareValue dateOf a b = timeKey dateOf b - timeKey dateOf a := by
  unfold compareValue compareByTimestamp timeKey
  unfold entryTime at ha hb ⊢
  cases h1 : dateOf (a.get "timestamp") with
  | none => simp [h1] at ha
  | some ta =>
    cases h2 : dateOf (b.get "timestamp") with
    | none => simp [h2] at hb
    | some tb => simp

theorem mem_lateInsert {α : Type} (cmp : α → α → Int) (p : α) :
    ∀ (l : List α) (e : α), e ∈ lateInsert cmp p l ↔ e = p ∨ e ∈ l
  | [], e => by simp [lateInsert]
  | x :: xs, e => by
    unfold lateInsert
    split
    · simp
    · simp only [List.mem_cons, mem_lateInsert cmp p xs e]
      tauto

theorem lateInsert_orderedInsert (dateOf : JsVal → Option Int) (a p : JsObject)
    (ha : (entryTime dateOf a).isSome) (hp : (entryTime dateOf p).isSome) :
    ∀ l : List JsObject, (∀ e ∈ l, (entryTime dateOf e).isSome) →
      lateInsert (compareValue dateOf) p (l.orderedInsert (sortsBefore dateOf) a) =
        (lateInsert (compareValue dateOf) p l).orderedInsert (sortsBefore dateOf) a
  | [], _ => by
    have h1 := compareValue_eq dateOf p a hp ha
    have h2 := sortsBefore_iff dateOf a p ha hp
    by_cases hlt : timeKey dateOf a < timeKey dateOf p
    · have hc : compareValue dateOf p a < 0 := by omega
      have hn : ¬ sortsBefore dateOf a p := by rw [h2]; omega
      simp [lateInsert, List.orderedInsert, hc, hn]
    · have hc : ¬ compareValue dateOf p a < 0 := by omega
      have hn : sortsBefore dateOf a p := by rw [h2]; omega
      simp [lateInsert, List.orderedInsert, hc, hn]
  | x :: xs, hl => by
    have hx : (entryTime dateOf x).isSome := hl x (List.mem_cons_self x xs)
    have hxs : ∀ e ∈ xs, (entryTime dateOf e).isSome :=
      fun e he => hl e (List.mem_cons_of_mem x he)
    have ih := lateInsert_orderedInsert dateOf a p ha hp xs hxs
    have cpa := compareValue_eq dateOf p a hp ha
    have cpx := compareValue_eq dateOf p x hp hx
    have sap := sortsBefore_iff dateOf a p ha hp
    have sax := sortsBefore_iff dateOf a x ha hx
    by_cases h1 : sortsBefore dateOf a x
    · by_cases h2 : compareValue dateOf p x < 0
      · by_cases h3 : compareValue dateOf p a < 0
        · have h4 : ¬ sortsBefore dateOf a p := by rw [sap]; omega
          simp [lateInsert, List.orderedInsert, h1, h2, h3, h4]
        · have h4 : sortsBefore dateOf a p := by rw [sap]; omega
          simp [lateInsert, List.orderedInsert, h1, h2, h3, h4]
      · have h3 : ¬ compareValue dateOf p a < 0 := by
          rw [sax] at h1; omega
        simp [lateInsert, List.orderedInsert, h1, h2, h3]
    · by_cases h2 : compareValue dateOf p x < 0
      · have h4 : ¬ sortsBefore dateOf a p := by
          rw [sax] at h1; rw [sap]; omega
        simp [lateInsert, List.orderedInsert, h1, h2, h4]
      · simp only [List.orderedInsert, h1, ↓reduceIte, lateInsert, h2]
        rw [ih]

theorem foldl_lateInsert_orderedInsert (dateOf : JsVal → Option Int) (a : JsObject)
    (ha : (entryTime dateOf a).isSome) :
    ∀ (l arr : List JsObject), (∀ e ∈ l, (entryTime dateOf e).isSome) →
      (∀ e ∈ arr, (entryTime dateOf e).isSome) →
      l.foldl (fun acc p => lateInsert (compareValue dateOf) p acc)
          (arr.orderedInsert (sortsBefore dateOf) a) =
        (l.foldl (fun acc p => lateInsert (compareValue dateOf) p acc) arr).orderedInsert
          (sortsBefore dateOf) a
  | [], _, _, _ => rfl
  | p :: l, arr, hl, harr => by
    have hp : (entryTime dateOf p).isSome := hl p (List.mem_cons_self p l)
    have hl' : ∀ e ∈ l, (entryTime dateOf e).isSome :=
      fun e he => hl e (List.mem_cons_of_mem p he)
    have harr' : ∀ e ∈ lateInsert (compareValue dateOf) p arr, (entryTime dateOf e).isSome := by
      intro e he
      rcases (mem_lateInsert _ p arr e).mp he with rfl | he
      · exact hp
      · exact harr e he
    simp only [List.foldl_cons]
    rw [lateInsert_orderedInsert dateOf a p ha hp arr harr]
    exact foldl_lateInsert_orderedInsert dateOf a ha l _ hl' harr'

theorem foldl_lateInsert_eq_insertionSort (dateOf : JsVal → Option Int) :
    ∀ l : List JsObject, (∀ e ∈ l, (entryTime dateOf e).isSome) →
      l.foldl (fun acc p => lateInsert (compareValue dateOf) p acc) [] =
        l.insertionSort (sortsBefore dateOf)
  | [], _ => rfl
  | a :: l, hl => by
    have ha : (entryTime dateOf a).isSome := hl a (List.mem_cons_self a l)
    have hl' : ∀ e ∈ l, (entryTime dateOf e).isSome :=
      fun e he => hl e (List.mem_cons_of_mem a he)
    have hstart : lateInsert (compareValue dateOf) a [] =
        ([] : List JsObject).orderedInsert (sortsBefore dateOf) a := rfl
    simp only [List.foldl_cons, List.insertionSort]
    rw [hstart, foldl_lateInsert_orderedInsert dateOf a ha l [] hl' (by simp),
      foldl_lateInsert_eq_insertionSort dateOf l hl']

theorem take_drop_eq_lateInsert {α : Type} (cmp : α → α → Int) (p : α) :
    ∀ (arr : List α) (pos : Nat),
      (∀ i x, i < pos → arr[i]? = some x → ¬ cmp p x < 0) →
      (∀ i x, pos ≤ i → arr[i]? = some x → cmp p x < 0) →
      arr.take pos ++ p :: arr.drop pos = lateInsert cmp p arr
  | [], pos, _, _ => by simp [lateInsert]
  | x :: xs, pos, hlow, hhigh => by
    by_cases hx : cmp p x < 0
    · have hpos : pos = 0 := by
        by_contra hne
        exact hlow 0 x (Nat.pos_of_ne_zero hne) (by simp) hx
      subst hpos
      simp [lateInsert, hx]
    · cases pos with
      | zero => exact absurd (hhigh 0 x (Nat.le_refl 0) (by simp)) hx
      | succ n =>
        have ih := take_drop_eq_lateInsert cmp p xs n
          (fun i y hi hy => hlow (i + 1) y (by omega) (by simpa using hy))
          (fun i y hi hy => hhigh (i + 1) y (by omega) (by simpa using hy))
        simp only [List.take_succ_cons, List.drop_succ_cons, List.cons_append, lateInsert, hx,
          ↓reduceIte]
        rw [ih]

theorem insertPosition_boundary {α : Type} (cmp : α → α → Int) (p : α) (arr : List α)
    (hmono : ∀ (i j : Nat) (x y : α), i ≤ j → arr[i]? = some x → arr[j]? = some y →
      cmp p x < 0 → cmp p y < 0) :
    ∀ (fuel left right : Nat), left ≤ right → right ≤ arr.length → right - left < fuel →
      (∀ i x, i < left → arr[i]? = some x → ¬ cmp p x < 0) →
      (∀ i x, right ≤ i → arr[i]? = some x → cmp p x < 0) →
      (∀ i x, i < insertPosition cmp p arr fuel left right → arr[i]? = some x →
        ¬ cmp p x < 0) ∧
      (∀ i x, insertPosition cmp p arr fuel left right ≤ i → arr[i]? = some x →
        cmp p x < 0)
  | 0, _, _, _, _, hfuel, _, _ => by omega
  | fuel + 1, left, right, hlr, hlen, hfuel, hlow, hhigh => by
    unfold insertPosition
    by_cases hlt : left < right
    · have hmid : left + (right - left) / 2 < arr.length := by omega
      have hget : arr[left + (right - left) / 2]? = some (arr[left + (right - left) / 2]) :=
        List.getElem?_eq_getElem hmid
      simp only [hlt, ↓reduceIte, hget]
      by_cases hc : cmp p (arr[left + (right - left) / 2]) < 0
      · simp only [hc, ↓reduceIte]
        refine insertPosition_boundary cmp p arr hmono fuel left _ (by omega) (by omega)
          (by omega) hlow ?_
        intro i x hi hx
        exact hmono _ i _ x hi hget hx hc
      · simp only [hc, ↓reduceIte]
        refine insertPosition_boundary cmp p arr hmono fuel _ right (by omega) hlen
          (by omega) ?_ hhigh
        intro i x hi hx hpx
        exact hc (hmono i _ x _ (by omega) hx hget hpx)
    · have heq : left = right := by omega
      subst heq
      simp only [hlt, ↓reduceIte]
      exact ⟨hlow, hhigh⟩

theorem binaryInsert_eq_lateInsert (dateOf : JsVal → Option Int) (p : JsObject)
    (hp : (entryTime dateOf p).isSome) (arr : List JsObject)
    (harr : ∀ e ∈ arr, (entryTime dateOf e).isSome)
    (hs : arr.Pairwise (fun x y => timeKey dateOf y ≤ timeKey dateOf x)) :
    binaryInsert (compareValue dateOf) arr p = lateInsert (compareValue dateOf) p arr := by
  have hmono : ∀ (i j : Nat) (x y : JsObject), i ≤ j → arr[i]? = some x →
      arr[j]? = some y → compareValue dateOf p x < 0 → compareValue dateOf p y < 0 := by
    intro i j x y hij hx hy hpx
    have hxm : x ∈ arr := List.getElem?_mem hx
    have hym : y ∈ arr := List.getElem?_mem hy
    rw [compareValue_eq dateOf p x hp (harr x hxm)] at hpx
    rw [compareValue_eq dateOf p y hp (harr y hym)]
    rcases Nat.lt_or_ge i j with hlt | hge
    · have := List.pairwise_iff_getElem.mp hs i j
        (by
          obtain ⟨h, _⟩ := List.getElem?_eq_some_iff.mp hx
          exact h)
        (by
          obtain ⟨h, _⟩ := List.getElem?_eq_some_iff.mp hy
          exact h) hlt
      obtain ⟨_, hx'⟩ := List.getElem?_eq_some_iff.mp hx
      obtain ⟨_, hy'⟩ := List.getElem?_eq_some_iff.mp hy
      rw [hx', hy'] at this
      omega
    · have hij' : i = j := by omega
      subst hij'
      rw [hx] at hy
      cases hy
      exact hpx
  have hb := insertPosition_boundary (compareValue dateOf) p arr hmono (arr.length + 1) 0
    arr.length (Nat.zero_le _) (Nat.le_refl _) (by omega)
    (fun i x hi _ => absurd hi (Nat.not_lt_zero i))
    (fun i x hi hx => by
      obtain ⟨h, _⟩ := List.getElem?_eq_some_iff.mp hx
      omega)
  unfold binaryInsert
  exact take_drop_eq_lateInsert (compareValue dateOf) p arr _ hb.1 hb.2

theorem runRest_chain_ascending (dateOf : JsVal → Option Int) :
    ∀ (rest : List JsObject) (prev : JsObject), (entryTime dateOf prev).isSome →
      (∀ e ∈ rest, (entryTime dateOf e).isSome) →
      List.Chain (fun x y => timeKey dateOf y ≤ timeKey dateOf x) prev
        (rest.take (runRest (compareValue dateOf) false prev rest))
  | [], _, _, _ => by simp [runRest]
  | cur :: rest, prev, hprev, hrest => by
    have hcur : (entryTime dateOf cur).isSome := hrest cur (List.mem_cons_self cur rest)
    have hrest' : ∀ e ∈ rest, (entryTime dateOf e).isSome :=
      fun e he => hrest e (List.mem_cons_of_mem cur he)
    have hc := compareValue_eq dateOf cur prev hcur hprev
    unfold runRest
    by_cases h : compareValue dateOf cur prev < 0
    · simp [h]
    · simp only [Bool.false_eq_true, ↓reduceIte, h, Nat.add_comm 1, List.take_succ_cons]
      exact List.Chain.cons (by omega) (runRest_chain_ascending dateOf rest cur hcur hrest')

theorem runRest_chain_descending (dateOf : JsVal → Option Int) :
    ∀ (rest : List JsObject) (prev : JsObject), (entryTime dateOf prev).isSome →
      (∀ e ∈ rest, (entryTime dateOf e).isSome) →
      List.Chain (fun x y => timeKey dateOf x < timeKey dateOf y) prev
        (rest.take (runRest (compareValue dateOf) true prev rest))
  | [], _, _, _ => by simp [runRest]
  | cur :: rest, prev, hprev, hrest => by
    have hcur : (entryTime dateOf cur).isSome := hrest cur (List.mem_cons_self cur rest)
    have hrest' : ∀ e ∈ rest, (entryTime dateOf e).isSome :=
      fun e he => hrest e (List.mem_cons_of_mem cur he)
    have hc := compareValue_eq dateOf cur prev hcur hprev
    unfold runRest
    by_cases h : compareValue dateOf cur prev ≥ 0
    · simp [h]
    · simp only [↓reduceIte, h, Nat.add_comm 1, List.take_succ_cons]
      exact List.Chain.cons (by omega) (runRest_chain_descending dateOf rest cur hcur hrest')

theorem insertionSort_of_descending (dateOf : JsVal → Option Int) (l : List JsObject)
    (hl : ∀ e ∈ l, (entryTime dateOf e).isSome)
    (hs : l.Pairwise (fun x y => timeKey dateOf y ≤ timeKey dateOf x)) :
    l.insertionSort (sortsBefore dateOf) = l := by
  apply List.Sorted.insertionSort_eq
  exact hs.imp_of_mem (fun {a b} ha hb h => (sortsBefore_iff dateOf a b (hl a ha) (hl b hb)).mpr h)

theorem firstRun_eq_insertionSort (dateOf : JsVal → Option Int) :
    ∀ l : List JsObject, (∀ e ∈ l, (entryTime dateOf e).isSome) →
      (if (countRun (compareValue dateOf) l).2 then
          (l.take (countRun (compareValue dateOf) l).1).reverse
        else l.take (countRun (compareValue dateOf) l).1) =
        (l.take (countRun (compareValue dateOf) l).1).insertionSort (sortsBefore dateOf)
  | [], _ => by simp [countRun]
  | [a], _ => by simp [countRun]
  | high :: low :: rest, hl => by
    have hhigh : (entryTime dateOf high).isSome := hl high (by simp)
    have hlow : (entryTime dateOf low).isSome := hl low (by simp)
    have hrest : ∀ e ∈ rest, (entryTime dateOf e).isSome :=
      fun e he => hl e (by simp [he])
    have hc := compareValue_eq dateOf low high hlow hhigh
    have htake : ∀ m, (high :: low :: rest).take (2 + m) = high :: low :: rest.take m := by
      intro m
      rw [Nat.add_comm 2 m]
      rfl
    have hvalid : ∀ m, ∀ e ∈ high :: low :: rest.take m, (entryTime dateOf e).isSome := by
      intro m e he
      rcases List.mem_cons.mp he with rfl | he
      · exact hhigh
      · rcases List.mem_cons.mp he with rfl | he
        · exact hlow
        · exact hrest e (List.mem_of_mem_take he)
    unfold countRun
    by_cases hd : compareValue dateOf low high < 0
    · simp only [hd, decide_True, ↓reduceIte, htake]
      haveI : IsTrans JsObject (fun x y => timeKey dateOf x < timeKey dateOf y) :=
        ⟨fun _ _ _ h1 h2 => lt_trans h1 h2⟩
      have hchain : List.Chain (fun x y => timeKey dateOf x < timeKey dateOf y) high
          (low :: rest.take (runRest (compareValue dateOf) true low rest)) :=
        List.Chain.cons (by omega) (runRest_chain_descending dateOf rest low hlow hrest)
      have hpw := List.chain_iff_pairwise.mp hchain
      have hrev : (high :: low ::
          rest.take (runRest (compareValue dateOf) true low rest)).reverse.Pairwise
          (fun x y => timeKey dateOf y < timeKey dateOf x) :=
        List.pairwise_reverse.mpr hpw
      have hvrev : ∀ e ∈ (high :: low ::
          rest.take (runRest (compareValue dateOf) true low rest)).reverse,
          (entryTime dateOf e).isSome :=
        fun e he => hvalid _ e (List.mem_reverse.mp he)
      rw [insertionSort_perm_invariant dateOf _ _ (List.reverse_perm _).symm hvrev
        (hrev.imp (fun h => ne_of_gt h))]
      exact (insertionSort_of_descending dateOf _ hvrev (hrev.imp (fun h => le_of_lt h))).symm
    · simp only [hd, decide_False, Bool.false_eq_true, ↓reduceIte, htake]
      haveI : IsTrans JsObject (fun x y => timeKey dateOf y ≤ timeKey dateOf x) :=
        ⟨fun _ _ _ h1 h2 => le_trans h2 h1⟩
      have hchain : List.Chain (fun x y => timeKey dateOf y ≤ timeKey dateOf x) high
          (low :: rest.take (runRest (compareValue dateOf) false low rest)) :=
        List.Chain.cons (by omega) (runRest_chain_ascending dateOf rest low hlow hrest)
      exact (insertionSort_of_descending dateOf _ (hvalid _)
        (List.chain_iff_pairwise.mp hchain)).symm

theorem foldl_binaryInsert_eq (dateOf : JsVal → Option Int) :
    ∀ (rest pre : List JsObject), (∀ e ∈ pre, (entryTime dateOf e).isSome) →
      (∀ e ∈ rest, (entryTime dateOf e).isSome) →
      rest.foldl (binaryInsert (compareValue dateOf))
          (pre.insertionSort (sortsBefore dateOf)) =
        (pre ++ rest).insertionSort (sortsBefore dateOf)
  | [], pre, _, _ => by simp
  | p :: rest, pre, hpre, hrest => by
    have hp : (entryTime dateOf p).isSome := hrest p (List.mem_cons_self p rest)
    have hrest' : ∀ e ∈ rest, (entryTime dateOf e).isSome :=
      fun e he => hrest e (List.mem_cons_of_mem p he)
    have hpre' : ∀ e ∈ pre ++ [p], (entryTime dateOf e).isSome := by
      intro e he
      rcases List.mem_append.mp he with he | he
      · exact hpre e he
      · rw [List.mem_singleton.mp he]; exact hp
    have hstep : binaryInsert (compareValue dateOf) (pre.insertionSort (sortsBefore dateOf)) p =
        (pre ++ [p]).insertionSort (sortsBefore dateOf) := by
      rw [binaryInsert_eq_lateInsert dateOf p hp _
        (fun e he => hpre e ((List.mem_insertionSort _).mp he))
        (insertionSort_descending dateOf pre hpre),
        ← foldl_lateInsert_eq_insertionSort dateOf pre hpre,
        ← foldl_lateInsert_eq_insertionSort dateOf (pre ++ [p]) hpre']
      simp [List.foldl_append]
    simp only [List.foldl_cons]
    rw [hstep, foldl_binaryInsert_eq dateOf rest (pre ++ [p]) hpre' hrest']
    simp

theorem v8Sort_eq_insertionSort (dateOf : JsVal → Option Int) (l : List JsObject)
    (hl : ∀ e ∈ l, (entryTime dateOf e).isSome) :
    v8Sort (compareValue dateOf) l = l.insertionSort (sortsBefore dateOf) := by
  unfold v8Sort
  rw [firstRun_eq_insertionSort dateOf l hl,
    foldl_binaryInsert_eq dateOf _ _ (fun e he => hl e (List.mem_of_mem_take he))
      (fun e he => hl e (List.mem_of_mem_drop he)),
    List.take_append_drop]

theorem historyListV8_eq_historyList (dateOf : JsVal → Option Int)
    (data : List (String × JsObject)) (hkeys : ∀ kv ∈ data, kv.2.uniqueKeys)
    (hvalid : ∀ kv ∈ data, (dateOf (kv.2.get "timestamp")).isSome) :
    historyListV8 dateOf data = historyList dateOf data := by
  unfold historyListV8 historyList
  apply v8Sort_eq_insertionSort
  intro e he
  obtain ⟨kv, hkv, rfl⟩ := List.mem_map.mp he
  unfold entryTime
  rw [historyEntry_timestamp kv.1 kv.2 (hkeys kv hkv)]
  exact hvalid kv hkv

/-! ## Ties in the history (C11) -/

/-- C11, as stated, fails: in `tieSnapshot` the records `-N5` and `-N7` carry the same
timestamp and `-N5` is enumerated first, yet with the undated record `-N4` among them the
list V8 produces shows `-N7` before `-N5`. -/
theorem undated_record_breaks_tie_order :
    tieSnapshot.map Prod.fst = ["-N1", "-N2", "-N3", "-N4", "-N5", "-N6", "-N7"] ∧
    (tieSnapshot.map (fun kv => sampleDate (kv.2.get "timestamp"))) =
      [some 1714557600000, some 1714557600000, some 1714557600000, none,
       some 1714644000000, some 1714730400000, some 1714644000000] ∧
    (historyListV8 sampleDate tieSnapshot).map (fun e => e.get "id") =
      [.str "-N6", .str "-N7", .str "-N1", .str "-N2", .str "-N3", .str "-N4",
       .str "-N5"] := by
  decide

/-- C11, amended: for a snapshot whose records all carry valid timestamps, the stored
history holds exactly the snapshot's entries in descending timestamp order, any two
records with equal timestamps appear in it in the order in which the snapshot enumerates
their keys, and V8 produces that same list. -/
theorem ties_keep_enumeration_order (dateOf : JsVal → Option Int)
    (data : List (String × JsObject)) (s : HistoryState)
    (hkeys : ∀ kv ∈ data, kv.2.uniqueKeys)
    (hvalid : ∀ kv ∈ data, (dateOf (kv.2.get "timestamp")).isSome) :
    (onValue dateOf (some data) s).history.Perm (historyEntries data) ∧
    (onValue dateOf (some data) s).history.Pairwise
      (fun a b => ∃ ta tb, dateOf (a.get "timestamp") = some ta ∧
        dateOf (b.get "timestamp") = some tb ∧ tb ≤ ta) ∧
    (∀ x y : String × JsObject, [x, y].Sublist data →
      dateOf (x.2.get "timestamp") = dateOf (y.2.get "timestamp") →
      [historyEntry x.1 x.2, historyEntry y.1 y.2].Sublist
        (onValue dateOf (some data) s).history) ∧
    historyListV8 dateOf data = (onValue dateOf (some data) s).history := by
  have htime : ∀ kv ∈ data,
      entryTime dateOf (historyEntry kv.1 kv.2) = dateOf (kv.2.get "timestamp") := by
    intro kv hkv
    unfold entryTime
    rw [historyEntry_timestamp kv.1 kv.2 (hkeys kv hkv)]
  have hl : ∀ e ∈ historyEntries data, (entryTime dateOf e).isSome := by
    intro e he
    obtain ⟨kv, hkv, rfl⟩ := List.mem_map.mp he
    rw [htime kv hkv]
    exact hvalid kv hkv
  refine ⟨List.perm_insertionSort _ _, ?_, ?_,
    historyListV8_eq_historyList dateOf data hkeys hvalid⟩
  · refine (insertionSort_descending dateOf (historyEntries data) hl).imp_of_mem ?_
    intro a b ha hb hle
    have hva := hl a ((List.mem_insertionSort _).mp ha)
    have hvb := hl b ((List.mem_insertionSort _).mp hb)
    unfold timeKey at hle
    unfold entryTime at hva hvb hle
    cases ha' : dateOf (a.get "timestamp") with
    | none => simp [ha'] at hva
    | some ta =>
      cases hb' : dateOf (b.get "timestamp") with
      | none => simp [hb'] at hvb
      | some tb =>
        rw [ha', hb'] at hle
        exact ⟨ta, tb, rfl, rfl, by simpa using hle⟩
  · intro x y hxy heq
    have hx : x ∈ data := hxy.subset (by simp)
    have hy : y ∈ data := hxy.subset (by simp)
    have hsub : [historyEntry x.1 x.2, historyEntry y.1 y.2].Sublist (historyEntries data) :=
      List.Sublist.map (fun kv : String × JsObject => historyEntry kv.1 kv.2) hxy
    have hex : (entryTime dateOf (historyEntry x.1 x.2)).isSome := by
      rw [htime x hx]; exact hvalid x hx
    have hey : (entryTime dateOf (historyEntry y.1 y.2)).isSome := by
      rw [htime y hy]; exact hvalid y hy
    have hr : sortsBefore dateOf (historyEntry x.1 x.2) (historyEntry y.1 y.2) := by
      rw [sortsBefore_iff dateOf _ _ hex hey]
      unfold timeKey
      rw [htime x hx, htime y hy, heq]
    exact List.pair_sublist_insertionSort hr hsub

/-- Four dated records of which `-N2` and `-N4` share a timestamp: `-N2` stays ahead of
`-N4` in the stored history, and V8 arranges the snapshot the same way. -/
theorem ties_keep_enumeration_order_witness :
    (∀ kv ∈ validTieSnapshot, kv.2.uniqueKeys) ∧
    (∀ kv ∈ validTieSnapshot, (sampleDate (kv.2.get "timestamp")).isSome) ∧
    [historyEntry "-N2" (sampleRecord "r2" "2024-05-02T10:00:00.000Z"),
      historyEntry "-N4" (sampleRecord "r4" "2024-05-02T10:00:00.000Z")].Sublist
      (onValue sampleDate (some validTieSnapshot) ⟨[], true⟩).history ∧
    (onValue sampleDate (some validTieSnapshot) ⟨[], true⟩).history.map
        (fun e => e.get "id") = [.str "-N3", .str "-N2", .str "-N4", .str "-N1"] ∧
    historyListV8 sampleDate validTieSnapshot =
      (onValue sampleDate (some validTieSnapshot) ⟨[], true⟩).history :=
  ⟨by decide, by decide,
   (ties_keep_enumeration_order sampleDate validTieSnapshot ⟨[], true⟩ (by decide)
      (by decide)).2.2.1
      ("-N2", sampleRecord "r2" "2024-05-02T10:00:00.000Z")
      ("-N4", sampleRecord "r4" "2024-05-02T10:00:00.000Z") (by decide) rfl,
   by decide, by decide⟩

/-! ## Sign-in profile (C12) -/

/-- What `userInstance` would do in a module that also bound `get` and `update`, the store
answering every call: a missing profile is created with `createdAt` and `lastLogin` read
from the clock, an existing one has `lastLogin` rewritten and every other property kept. -/
theorem userInstance_with_bindings (env : LoginEnv) (u : AuthUser) (store : Store)
    (hu : u.uid ≠ "") (hget : env.getError ("users/" ++ u.uid) = none)
    (hset : env.setError ("users/" ++ u.uid) = none)
    (hupd : env.updateError ("users/" ++ u.uid) = none) :
    (store ("users/" ++ u.uid) = none →
      ∃ profile, (userInstance ("get" :: "update" :: loginDatabaseNames) env (some u)
          store).store ("users/" ++ u.uid) = some profile ∧
        profile.get "uid" = .str u.uid ∧ profile.get "email" = u.email ∧
        profile.get "createdAt" = .str env.now ∧
        profile.get "lastLogin" = .str env.nowNext) ∧
    (∀ old, store ("users/" ++ u.uid) = some old →
      ∃ profile, (userInstance ("get" :: "update" :: loginDatabaseNames) env (some u)
          store).store ("users/" ++ u.uid) = some profile ∧
        ∀ k, profile.get k = if k = "lastLogin" then .str env.now else old.get k) := by
  constructor
  · intro hnone
    refine ⟨[("uid", .str u.uid), ("email", u.email),
        ("displayName", if u.displayName.truthy then u.displayName else .str "N/A"),
        ("photoURL", if u.photoURL.truthy then u.photoURL else .null),
        ("createdAt", .str env.now), ("lastLogin", .str env.nowNext)], ?_, ?_⟩
    · simp [userInstance, userInstanceTry, hu, resolveName, loginDatabaseNames, dbCall, hget,
        hset, hnone, Store.write, bind, Except.bind, pure, Except.pure]
    · simp [JsObject.get_cons]
  · intro old hold
    refine ⟨JsObject.set old "lastLogin" (.str env.now), ?_, ?_⟩
    · simp [userInstance, userInstanceTry, hu, resolveName, loginDatabaseNames, dbCall, hget,
        hupd, hold, Store.write, Store.update, JsObject.spread, bind, Except.bind, pure,
        Except.pure]
    · intro k
      exact JsObject.get_set old "lastLogin" (.str env.now) k

/-- C12: the code does not do what the claim says. Login.jsx binds neither `get` nor
`update`, so for every user with a valid uid and every store `userInstance` stops at its
first database read with a `ReferenceError`: the store is left exactly as it was (no
profile is created, no `lastLogin` is written) and the notification
`Could not save user data.` is shown. -/
theorem userInstance_saves_nothing (env : LoginEnv) (u : AuthUser) (store : Store)
    (hu : u.uid ≠ "") :
    (userInstance loginDatabaseNames env (some u) store).store = store ∧
    (userInstance loginDatabaseNames env (some u) store).notifications =
      [⟨"error", "Could not save user data."⟩] := by
  have hget : resolveName loginDatabaseNames "get" = .error ⟨"", "get is not defined"⟩ := by
    simp [resolveName, loginDatabaseNames]
  have href : resolveName loginDatabaseNames "ref" = .ok () := by
    simp [resolveName, loginDatabaseNames]
  have htry : userInstanceTry loginDatabaseNames env u store =
      .error ⟨"", "get is not defined"⟩ := by
    unfold userInstanceTry
    rw [href, hget]
    rfl
  unfold userInstance
  simp only []
  rw [if_neg hu, htry]
  exact ⟨rfl, by simp [saveFailureMessage]⟩

/-- A first sign-in and a returning sign-in of `alice`: `userInstance` leaves the store as
it was both times; the dashboard's own effect then creates a profile without `lastLogin`
for the first and changes nothing for the second. -/
theorem userInstance_saves_nothing_witness :
    (userInstance loginDatabaseNames calmEnv (some aliceSignedIn) emptyStore).store
      "users/u1" = none ∧
    (userInstance loginDatabaseNames calmEnv (some aliceSignedIn) returningStore).store
      "users/u1" = some oldProfile ∧
    (userInstance loginDatabaseNames calmEnv (some aliceSignedIn) emptyStore).notifications =
      [⟨"error", "Could not save user data."⟩] ∧
    (profileEffect calmEnv.now (some alice) emptyStore "users/u1").map
      (fun o => (o.get "createdAt", o.get "lastLogin")) =
      some (.str "2024-05-04T09:00:00.000Z", .undefined) ∧
    profileEffect calmEnv.now (some alice) returningStore "users/u1" = some oldProfile :=
  have h1 := userInstance_saves_nothing calmEnv aliceSignedIn emptyStore (by decide)
  have h2 := userInstance_saves_nothing calmEnv aliceSignedIn returningStore (by decide)
  ⟨by rw [h1.1]; rfl, by rw [h2.1]; rfl, h1.2, by decide, by decide⟩

/-! ## Failures inside submit (C13) -/

/-- C13: once the prechecks have passed, `handleUpload` always completes with the
in-flight flag cleared (the phase is not Uploading); whatever the `try` block throws is
caught and shown as a non-empty error message, the thrown message itself or
`An unknown error occurred.` when it is empty; and each failing step does throw: a failed
token fetch, a failed transport, a non-success status, a success body that does not parse,
a failed append. -/
theorem submit_failure_is_caught (env : Env) (u : User) (f : File) (s : DashState)
    (hf : s.selectedFile = some f) :
    (handleUpload env (some u) s).state.loading = false ∧
    phase (handleUpload env (some u) s).state ≠ .Uploading ∧
    (∀ e, (uploadTry env u f (uploadingState s)).thrown = some e →
      (handleUpload env (some u) s).state.error =
        (if e.message = "" then "An unknown error occurred." else e.message) ∧
      (handleUpload env (some u) s).state.error ≠ "") ∧
    (∀ e, env.getIdToken u = .error e →
      (uploadTry env u f (uploadingState s)).thrown = some e) ∧
    (∀ t e, env.getIdToken u = .ok t → env.fetch (url env) f t = .error e →
      (uploadTry env u f (uploadingState s)).thrown = some e) ∧
    (∀ t r, env.getIdToken u = .ok t → env.fetch (url env) f t = .ok r → r.ok = false →
      (uploadTry env u f (uploadingState s)).thrown.isSome = true) ∧
    (∀ t r e, env.getIdToken u = .ok t → env.fetch (url env) f t = .ok r → r.ok = true →
      r.json = .error e → (uploadTry env u f (uploadingState s)).thrown = some e) ∧
    (∀ t r fields e, env.getIdToken u = .ok t → env.fetch (url env) f t = .ok r →
      r.ok = true → r.json = .ok (.object fields) →
      env.push (predictionsPath u) (predictionRecord env fields) = .error e →
      (uploadTry env u f (uploadingState s)).thrown = some e) := by
  have hload : (handleUpload env (some u) s).state.loading = false := by
    unfold handleUpload
    simp only [hf]
  refine ⟨hload, ?_, ?_, ?_, ?_, ?_, ?_, ?_⟩
  · intro h
    rw [(phase_uploading_iff _).mp h] at hload
    cases hload
  · intro e he
    have herr : (handleUpload env (some u) s).state.error =
        (catchError e (uploadTry env u f (uploadingState s)).state).error := by
      unfold handleUpload
      simp only [hf, he]
    rw [herr]
    refine ⟨?_, catchError_error_ne_empty e _⟩
    by_cases hm : e.message = "" <;> simp [catchError, hm]
  · intro e ht
    unfold uploadTry
    simp only [ht]
  · intro t e ht hr
    unfold uploadTry
    simp only [ht, hr]
  · intro t r ht hr hok
    unfold uploadTry
    simp only [ht, hr, hok, Bool.not_false, ↓reduceIte]
    cases r.json with
    | error err => simp [JsData.getProp, JsObject.get, JsVal.truthy]
    | ok d =>
      simp only []
      cases d.getProp "error" with
      | error e => rfl
      | ok v => by_cases htr : v.truthy = true <;> simp [htr]
  · intro t r e ht hr hok hj
    unfold uploadTry
    simp only [ht, hr, hok, hj, Bool.not_true, Bool.false_eq_true, ↓reduceIte]
  · intro t r fields e ht hr hok hj hp
    unfold uploadTry
    simp only [ht, hr, hok, hj, Bool.not_true, Bool.false_eq_true, ↓reduceIte,
      JsData.getProp]
    simp only [predictionRecord] at hp
    simp [hp]

/-- A submit of `photo` whose token fetch fails: the failure's message is shown and the
upload is no longer in flight. -/
theorem submit_failure_is_caught_witness :
    selectedState.selectedFile = some photo ∧
    (handleUpload tokenFailureEnv (some alice) selectedState).state.loading = false ∧
    (handleUpload tokenFailureEnv (some alice) selectedState).state.error =
      "auth/network-request-failed" :=
  have h := submit_failure_is_caught tokenFailureEnv alice photo selectedState (by decide)
  ⟨by decide, h.1,
   (h.2.2.1 ⟨"auth/network-request-failed"⟩
      (h.2.2.2.1 ⟨"auth/network-request-failed"⟩ rfl)).1⟩

/-! ## Entries of the history (C14) -/

/-- C14, as stated, fails: the one record of `ownIdSnapshot` is stored under the key `-N1`
and carries an `id` property `legacy-7`; the entry shown for it has id `legacy-7`, not its
key. -/
theorem own_id_overrides_key :
    ownIdSnapshot.map Prod.fst = ["-N1"] ∧
    (onValue sampleDate (some ownIdSnapshot) ⟨[], true⟩).history.map
      (fun e => e.get "id") = [.str "legacy-7"] := by
  decide

/-- C14, amended: for a non-null snapshot the stored history has exactly one entry per
snapshot key; the id of the entry built for a key is that key when the record stored under
it has no `id` property of its own, and the record's own `id` otherwise; when no record
has one and the keys are distinct, the ids in the view are the keys and hence pairwise
distinct; a null snapshot gives the empty history. -/
theorem history_entry_per_key (dateOf : JsVal → Option Int)
    (data : List (String × JsObject)) (s : HistoryState)
    (hkeys : ∀ kv ∈ data, kv.2.uniqueKeys) :
    (onValue dateOf (some data) s).history.Perm (historyEntries data) ∧
    (onValue dateOf (some data) s).history.length = data.length ∧
    (∀ kv ∈ data,
      (historyEntry kv.1 kv.2).get "id" = (kv.2.lookup "id").getD (.str kv.1)) ∧
    ((∀ kv ∈ data, kv.2.lookup "id" = none) → (data.map Prod.fst).Nodup →
      ((onValue dateOf (some data) s).history.map (fun e => e.get "id")).Perm
          (data.map (fun kv => JsVal.str kv.1)) ∧
        ((onValue dateOf (some data) s).history.map (fun e => e.get "id")).Nodup) ∧
    (onValue dateOf none s).history = [] := by
  have hperm : (onValue dateOf (some data) s).history.Perm (historyEntries data) :=
    List.perm_insertionSort _ _
  have hid : ∀ kv ∈ data,
      (historyEntry kv.1 kv.2).get "id" = (kv.2.lookup "id").getD (.str kv.1) := by
    intro kv hkv
    unfold historyEntry
    rw [JsObject.get_spread kv.2 (hkeys kv hkv), JsObject.get_cons]
    simp
  refine ⟨hperm, ?_, hid, ?_, rfl⟩
  · rw [hperm.length_eq]
    simp [historyEntries]
  · intro hno hnodup
    have hmap : (historyEntries data).map (fun e => e.get "id") =
        data.map (fun kv => JsVal.str kv.1) := by
      unfold historyEntries
      rw [List.map_map]
      apply List.map_congr_left
      intro kv hkv
      simp only [Function.comp]
      rw [hid kv hkv, hno kv hkv]
      rfl
    have hp : ((onValue dateOf (some data) s).history.map (fun e => e.get "id")).Perm
        (data.map (fun kv => JsVal.str kv.1)) := by
      rw [← hmap]
      exact hperm.map _
    refine ⟨hp, hp.nodup_iff.mpr ?_⟩
    have hinj : Function.Injective (fun k : String => JsVal.str k) := by
      intro a b hab
      cases hab
      rfl
    have := hnodup.map hinj
    rwa [List.map_map] at this

/-- The three records of `sampleSnapshot` have no `id` of their own: the ids shown are
their keys. -/
theorem history_entry_per_key_witness :
    (∀ kv ∈ sampleSnapshot, kv.2.uniqueKeys) ∧
    (onValue sampleDate (some sampleSnapshot) ⟨[], true⟩).history.length = 3 ∧
    ((onValue sampleDate (some sampleSnapshot) ⟨[], true⟩).history.map
      (fun e => e.get "id")).Nodup ∧
    (onValue sampleDate (some sampleSnapshot) ⟨[], true⟩).history.map
      (fun e => e.get "id") = [.str "-Nc", .str "-Nb", .str "-Na"] :=
  have h := history_entry_per_key sampleDate sampleSnapshot ⟨[], true⟩ (by decide)
  ⟨by decide, h.2.1, (h.2.2.2.1 (by decide) (by decide)).2, by decide⟩

end OceanSight
